import Mathlib

/-!
Verification of the SFU prerequisites-parsing repository.

This file gives a shallow embedding, in Lean 4, of the parts of the
repository that carry the interesting logic:

* `src/code/make_links.ts` — the graph extractor/weighting
  (`extractCourseRequirementsWithValues`), the depth calculator
  (`calculatePrerequisiteDepth`) and the graph assembler
  (`generateNodesAndLinks`);
* `src/code/utilities.ts` and `src/code/get.ts` — the two in-repository
  copies of the structural validator (`validateRequirementNode`,
  `validateCreditConflict`, `validateParsedCourseRequirements`).

Modelling conventions:

* JavaScript numbers are modelled as `ℚ`; the integer depths of
  `calculatePrerequisiteDepth` as `ℕ`.  `Math.round(x)` is modelled as
  `⌊x + 1/2⌋` (round half toward positive infinity), which agrees with
  JavaScript on all rational inputs.
* A JavaScript `Map` is modelled as an association list with
  first-match lookup; `set` replaces the value in place when the key is
  present and appends otherwise, which reproduces the `Map` insertion
  order that the TypeScript code relies on.
* JSON-decoded JavaScript values are modelled by the inductive `JValue`.
  JSON objects cannot contain `undefined` and cannot contain `NaN`, so a
  missing property is `Option.none` under `jlookup` and every `num` is a
  genuine number (`isNumber` needs no NaN case).
* `Array.prototype.sort` with comparator `(a, b) => a - b` is a stable
  ascending sort on numbers; it is modelled by `List.insertionSort (· ≤ ·)`,
  which is also stable and ascending and therefore produces the same list.
* Validator error strings: the TypeScript error messages interpolate a
  dynamic diagnostic suffix (`got ${typeof x}: ${JSON.stringify(x)}`) after
  the static text.  The embedding keeps the dotted path and the static
  message text (which identify the violated check) and elides the dynamic
  suffix and quote characters; no property below depends on message text
  beyond that.
* The node-size rescaling step of `generateNodesAndLinks`
  (make_links.ts lines 261-286) rewrites only the `size` field of the
  already-pruned nodes using `Math.log` over floating-point reals; it
  changes no node id, no node order and no link.  The `size` field is
  omitted from the embedding; no claim mentions it.
-/

/-- A JSON-decoded JavaScript value (`src/code` passes `JSON.parse` output
to the validators).  Objects keep their fields in insertion order. -/
inductive JValue where
  | null : JValue
  | bool (b : Bool) : JValue
  | num (q : ℚ) : JValue
  | str (s : String) : JValue
  | arr (elems : List JValue) : JValue
  | obj (fields : List (String × JValue)) : JValue

/-- Property access `o[k]` on a JavaScript object: the value when the
property is present, `none` (i.e. `undefined`) otherwise. -/
def jlookup : List (String × JValue) → String → Option JValue
  | [], _ => none
  | (k, v) :: fs, key => if k = key then some v else jlookup fs key

/-- A value found inside an object is structurally smaller than the field
list it came from (used for termination of the recursive validators). -/
theorem sizeOf_jlookup {fs : List (String × JValue)} {key : String} {v : JValue}
    (h : jlookup fs key = some v) : sizeOf v < sizeOf fs := by
  induction fs with
  | nil => simp [jlookup] at h
  | cons f fs ih =>
      obtain ⟨k, w⟩ := f
      simp only [jlookup] at h
      split at h
      · cases h; simp; omega
      · have := ih h
        simp
        omega

/-- The looked-up option is smaller than the object it came from. -/
theorem sizeOf_jlookup_opt (fs : List (String × JValue)) (key : String) :
    sizeOf (jlookup fs key) < 1 + sizeOf fs := by
  rcases h : jlookup fs key with _ | v
  · have : 0 < sizeOf fs := by
      cases fs <;> simp
    simp
    omega
  · have h1 := sizeOf_jlookup h
    simp
    omega

/-- `typeof v === 'string'` (utilities.ts line 287, get.ts line 279). -/
def isString : JValue → Bool
  | .str _ => true
  | _ => false

/-- `typeof v === 'number' && !isNaN(v)` (utilities.ts line 291, get.ts
line 283); `JValue.num` carries a rational, which is never NaN. -/
def isNumber : JValue → Bool
  | .num _ => true
  | _ => false

/-- `v !== null && typeof v === 'object' && !Array.isArray(v)`
(utilities.ts line 295, get.ts line 287). -/
def isObject : JValue → Bool
  | .obj _ => true
  | _ => false

/-- `Array.isArray(v)` (utilities.ts line 299, get.ts line 291). -/
def isArray : JValue → Bool
  | .arr _ => true
  | _ => false

/-- `JavaScript Map.get`: first matching key. -/
def mget {β : Type} : List (String × β) → String → Option β
  | [], _ => none
  | (k, v) :: m, key => if k = key then some v else mget m key

/-- `JavaScript Map.set`: replace in place when the key is present,
append otherwise (preserving `Map` iteration order). -/
def mset {β : Type} (m : List (String × β)) (key : String) (v : β) : List (String × β) :=
  if (mget m key).isSome then m.map (fun e => if e.1 = key then (key, v) else e)
  else m ++ [(key, v)]

/-- `Math.round` on a rational: round half toward positive infinity. -/
def jsRound (q : ℚ) : ℤ := ⌊q + 1/2⌋

/-- `Math.round(value * 100) / 100` — the two-decimal rounding applied in
`generateNodesAndLinks` at the moment a weight becomes a link value
(make_links.ts lines 190 and 224). -/
def round2 (q : ℚ) : ℚ := (jsRound (q * 100) : ℚ) / 100

/-- `logic` discriminator of a requirement group (types.ts line 34). -/
inductive Logic where
  | ALL_OF : Logic
  | ONE_OF : Logic
  | TWO_OF : Logic
  deriving DecidableEq

/-- `level` enumeration of creditCount/courseCount (types.ts line 75). -/
inductive Level where
  | oneXX : Level
  | twoXX : Level
  | threeXX : Level
  | fourXX : Level
  | LD : Level
  | UD : Level
  deriving DecidableEq

/-- The `RequirementNode` discriminated union (types.ts lines 32-96),
as consumed by make_links.ts (already-validated, typed trees). -/
inductive RequirementNode where
  | group (logic : Logic) (children : List RequirementNode)
  | course (department number : String) (minGrade : Option String)
      (canBeTakenConcurrently orEquivalent : Bool)
  | HSCourse (course : String) (minGrade : Option String) (orEquivalent : Bool)
  | creditCount (credits : ℚ) (department : Option (String ⊕ List String))
      (level : Option Level) (canBeTakenConcurrently : Bool)
  | courseCount (count : ℚ) (department : Option (String ⊕ List String))
      (level : Option Level) (minGrade : Option String) (canBeTakenConcurrently : Bool)
  | CGPA (minCGPA : ℚ)
  | UDGPA (minUDGPA : ℚ)
  | program (program : String)
  | permission (note : String)
  | other (note : String)

/-- A `course` leaf carrying only its required fields (the optional
fields are absent), as in the make_links test inputs. -/
def bareCourse (dept num : String) : RequirementNode :=
  .course dept num none false false

mutual

/-- `extractCourseRequirementsWithValues` (make_links.ts lines 32-75):
recursive extraction of `(course, value)` pairs from a requirement tree.
`course`/`HSCourse` leaves emit themselves at the current base value;
`group` nodes recompute the child value (`ALL_OF` keeps it, `ONE_OF`
divides by the child count, `TWO_OF` doubles then divides) and recurse;
every other node type emits nothing. -/
def extractCourseRequirementsWithValues : RequirementNode → ℚ → List (String × ℚ)
  | .course dept num _ _ _, baseValue => [(dept ++ " " ++ num, baseValue)]
  | .HSCourse c _ _, baseValue => [("HS " ++ c, baseValue)]
  | .group logic children, baseValue =>
      extractList children
        (match logic with
         | .ALL_OF => baseValue
         | .ONE_OF => baseValue / (children.length : ℚ)
         | .TWO_OF => baseValue * 2 / (children.length : ℚ))
  | _, _ => []

/-- The `for (const child of node.children)` loop of
`extractCourseRequirementsWithValues`, pushing each child's pairs in
order. -/
def extractList : List RequirementNode → ℚ → List (String × ℚ)
  | [], _ => []
  | c :: cs, v => extractCourseRequirementsWithValues c v ++ extractList cs v

end

mutual

/-- `calculatePrerequisiteDepth` (make_links.ts lines 78-114): a `course`
leaf reads the known depth of the referenced course (`get(...) || 0`,
i.e. 0 when absent) plus one; an `HSCourse` leaf is 1; a `group` maps the
calculator over its children, filters to the strictly positive depths,
and takes min (`ONE_OF`), second-smallest of the ascending sort
(`TWO_OF`, or the single element when only one remains) or max
(`ALL_OF`); every other node type is 0. -/
def calculatePrerequisiteDepth : RequirementNode → List (String × ℕ) → ℕ
  | .course dept num _ _ _, courseDepths =>
      (mget courseDepths (dept ++ " " ++ num)).getD 0 + 1
  | .HSCourse _ _ _, _ => 1
  | .group logic children, courseDepths =>
      if children.isEmpty then 0
      else
        match (depthList children courseDepths).filter (fun d => 0 < d) with
        | [] => 0
        | d :: ds =>
            match logic with
            | .ONE_OF => ds.foldl Nat.min d
            | .TWO_OF =>
                if 2 ≤ (List.insertionSort (· ≤ ·) (d :: ds)).length then
                  (List.insertionSort (· ≤ ·) (d :: ds)).getD 1 0
                else (List.insertionSort (· ≤ ·) (d :: ds)).getD 0 0
            | .ALL_OF => ds.foldl Nat.max d
  | _, _ => 0

/-- The `node.children.map(child => calculatePrerequisiteDepth(...))`
step of `calculatePrerequisiteDepth`. -/
def depthList : List RequirementNode → List (String × ℕ) → List ℕ
  | [], _ => []
  | c :: cs, courseDepths =>
      calculatePrerequisiteDepth c courseDepths :: depthList cs courseDepths

end

/-- One record of `parsed_requirements.json`, restricted to the fields
`generateNodesAndLinks` reads (`department`, `number`, `original_title`,
`prerequisite`, `corequisite`); the remaining record fields
(`r_schema`, recommended trees, credit conflicts, timestamp) are never
read by make_links.ts. -/
structure CourseRequirements where
  department : String
  number : String
  original_title : String
  prerequisite : Option RequirementNode
  corequisite : Option RequirementNode

/-- The course id `` `${course.department} ${course.number}` `` used as
map key throughout `generateNodesAndLinks`. -/
def recordId (c : CourseRequirements) : String := c.department ++ " " ++ c.number

/-- A graph node (make_links.ts lines 17-23); the visual `size` field is
omitted (see the header comment). -/
structure Node where
  id : String
  title : String
  group : String
  depth : ℕ
  deriving DecidableEq

/-- A graph link (make_links.ts lines 25-29). -/
structure Link where
  source : String
  target : String
  value : ℚ
  deriving DecidableEq

/-- The title lookup built first in `generateNodesAndLinks`
(lines 122-126). -/
def titleMapOf (requirements : List CourseRequirements) : List (String × String) :=
  requirements.foldl (fun m c => mset m (recordId c) c.original_title) []

/-- First half of the depth pass (lines 131-135): initialize every
record's own id to depth 0. -/
def initialDepths (requirements : List CourseRequirements) : List (String × ℕ) :=
  requirements.foldl (fun m c => mset m (recordId c) 0) []

/-- One step of the second half of the depth pass (lines 138-151): a
record's depth is the maximum of `calculatePrerequisiteDepth` over its
`prerequisite` and `corequisite` trees (0 when both are absent), read
against the depths computed so far. -/
def depthStep (m : List (String × ℕ)) (c : CourseRequirements) : List (String × ℕ) :=
  let d1 := match c.prerequisite with
    | some t => Nat.max 0 (calculatePrerequisiteDepth t m)
    | none => 0
  let d2 := match c.corequisite with
    | some t => Nat.max d1 (calculatePrerequisiteDepth t m)
    | none => d1
  mset m (recordId c) d2

/-- The complete first pass of `generateNodesAndLinks` (lines 128-151):
initialization followed by a fold over the records in catalog listing
order. -/
def courseDepthsOf (requirements : List CourseRequirements) : List (String × ℕ) :=
  requirements.foldl depthStep (initialDepths requirements)

/-- The assembler's in-progress state: the node map and the link map
(both keyed maps in insertion order). -/
abbrev AssemblyState := List (String × Node) × List (String × Link)

/-- `if (!nodesMap.has(id)) nodesMap.set(id, node)` (lines 159 and 175
and 209). -/
def addNodeIfAbsent (nm : List (String × Node)) (id : String) (nd : Node) :
    List (String × Node) :=
  if (mget nm id).isSome then nm else nm ++ [(id, nd)]

/-- The department extracted for a referenced course id:
`` id.split(' ')[0] || 'UNKNOWN' `` (lines 177 and 211). -/
def departmentOfId (id : String) : String :=
  match (id.splitOn " ").headD "" with
  | "" => "UNKNOWN"
  | s => s

/-- Processing of one extracted `(course, value)` pair against a target
(lines 173-200 for prerequisites, 207-234 for corequisites): create the
referenced node if absent, then upsert the link keyed by
`` `${sourceId}->${targetId}` `` keeping the higher rounded value. -/
def processPair (titleMap : List (String × String)) (courseDepths : List (String × ℕ))
    (targetId : String) (st : AssemblyState) (p : String × ℚ) : AssemblyState :=
  let (sourceId, value) := p
  let nm :=
    addNodeIfAbsent st.1 sourceId
      { id := sourceId
        title := (mget titleMap sourceId).getD sourceId
        group := departmentOfId sourceId
        depth := (mget courseDepths sourceId).getD 0 }
  let linkKey := sourceId ++ "->" ++ targetId
  let roundedValue := round2 value
  let lm :=
    match mget st.2 linkKey with
    | none => st.2 ++ [(linkKey, ⟨sourceId, targetId, roundedValue⟩)]
    | some l =>
        if l.value < roundedValue then
          st.2.map (fun e => if e.1 = linkKey then (linkKey, ⟨sourceId, targetId, roundedValue⟩) else e)
        else st.2
  (nm, lm)

/-- The pairs a record contributes, in processing order: its
prerequisite extraction followed by its corequisite extraction, each
starting at base value 1 (lines 170-171 and 204-205). -/
def recordPairs (c : CourseRequirements) : List (String × ℚ) :=
  (match c.prerequisite with
   | some t => extractCourseRequirementsWithValues t 1
   | none => []) ++
  (match c.corequisite with
   | some t => extractCourseRequirementsWithValues t 1
   | none => [])

/-- The body of the second pass for one record (lines 154-236): add the
record's own node (with its computed depth) if absent, then process its
extracted pairs in order. -/
def processRecord (titleMap : List (String × String)) (courseDepths : List (String × ℕ))
    (st : AssemblyState) (c : CourseRequirements) : AssemblyState :=
  (recordPairs c).foldl (processPair titleMap courseDepths (recordId c))
    (addNodeIfAbsent st.1 (recordId c)
      { id := recordId c
        title := c.original_title
        group := c.department
        depth := (mget courseDepths (recordId c)).getD 0 }, st.2)

/-- The full second pass of `generateNodesAndLinks`. -/
def assembledState (requirements : List CourseRequirements) : AssemblyState :=
  requirements.foldl (processRecord (titleMapOf requirements) (courseDepthsOf requirements))
    ([], [])

/-- Every node ever placed in `nodesMap`, in insertion order. -/
def createdNodes (requirements : List CourseRequirements) : List Node :=
  (assembledState requirements).1.map (·.2)

/-- `Array.from(linkMap.values())` (line 248). -/
def assembledLinks (requirements : List CourseRequirements) : List Link :=
  (assembledState requirements).2.map (·.2)

/-- The id set `linkedNodeIds` (lines 247-254): every id in source or
target position of some link. -/
def linkedNodeIds (links : List Link) : List String :=
  links.flatMap (fun l => [l.source, l.target])

/-- `generateNodesAndLinks` (make_links.ts lines 117-292): the pruned
node list and the link list (node sizing omitted, see header). -/
def generateNodesAndLinks (requirements : List CourseRequirements) :
    List Node × List Link :=
  let linkArray := assembledLinks requirements
  ((createdNodes requirements).filter (fun nd => (linkedNodeIds linkArray).contains nd.id),
   linkArray)

/-- `v === s` for a string literal `s` against an arbitrary JavaScript
value: true exactly when `v` is that string. -/
def strEq (v : JValue) (s : String) : Bool :=
  match v with
  | .str t => t = s
  | _ => false

/-- `o[k] === s`: the property is present and is the string `s`. -/
def lookupIsStr (fs : List (String × JValue)) (k s : String) : Bool :=
  match jlookup fs k with
  | some v => strEq v s
  | _ => false

/-- The result type shared by both validators (utilities.ts lines
281-284, get.ts lines 273-276): `isValid` is computed as
`errors.length === 0`. -/
structure ValidationResult where
  isValid : Bool
  errors : List String

/-- The `Object.keys(...).forEach` loop flagging properties outside a
credit-conflict variant's allowed set (utilities.ts lines 330-336 and
341-347; get.ts lines 322-328 and 333-339; identical in both files up to
the allowed set). -/
def invalidPropErrors (fs : List (String × JValue)) (validProps : List String)
    (path variant : String) : List String :=
  ((fs.map Prod.fst).filter (fun k => !(validProps.contains k))).map
    (fun k => path ++ "." ++ k ++ ": Invalid property for " ++ variant ++ " type")

/-- The allowed top-level envelope properties (utilities.ts lines
545-549 and get.ts lines 551-555, identical lists). -/
def validTopLevelProps : List String :=
  ["department", "number", "r_schema",
   "prerequisite", "corequisite", "recommended_prerequisite", "recommended_corequisite",
   "credit_conflicts", "rawResponse"]

/-- The `Object.keys(parsedObj).forEach` loop flagging unexpected
top-level properties (utilities.ts lines 550-554, get.ts lines 556-560,
identical in both files). -/
def unexpectedPropErrors (fs : List (String × JValue)) : List String :=
  ((fs.map Prod.fst).filter (fun k => !(validTopLevelProps.contains k))).map
    (fun k => k ++ ": Unexpected property")

/-- `if (!isString(o[k])) errors.push(msg)` — a required string field.
The message is a parameter because the two validator copies word it
differently (e.g. utilities.ts prefixes `Course ` in its course case). -/
def requiredStringError (fs : List (String × JValue)) (k msg : String) : List String :=
  match jlookup fs k with
  | some (.str _) => []
  | _ => [msg]

/-- `if (!isNumber(o[k])) errors.push(msg)` — a required numeric field. -/
def requiredNumberError (fs : List (String × JValue)) (k msg : String) : List String :=
  match jlookup fs k with
  | some (.num _) => []
  | _ => [msg]

/-- `if (o[k] !== undefined && !isString(o[k])) errors.push(msg)` — an
optional string field. -/
def optionalStringError (fs : List (String × JValue)) (k msg : String) : List String :=
  match jlookup fs k with
  | none => []
  | some v => if isString v then [] else [msg]

/-- `if (o[k] !== undefined && o[k] !== 'true') errors.push(msg)` — an
optional flag that must be the string literal `true` when present. -/
def flagTrueError (fs : List (String × JValue)) (k msg : String) : List String :=
  match jlookup fs k with
  | none => []
  | some v => if strEq v "true" then [] else [msg]

/-- The `logic` check of the `group` case (utilities.ts lines 371-375,
get.ts lines 363-367; identical in both copies): a missing/non-string
`logic` is one error, a string outside the three-value enumeration is
one error. -/
def logicErrors (fs : List (String × JValue)) (path : String) : List String :=
  match jlookup fs "logic" with
  | some (.str l) =>
      if l = "ALL_OF" ∨ l = "ONE_OF" ∨ l = "TWO_OF" then []
      else [path ++ ".logic: Must be ALL_OF, ONE_OF, or TWO_OF"]
  | _ => [path ++ ".logic: Must be a string"]

/-- The optional `department : string | string[]` sub-check of the
creditCount/courseCount cases (utilities.ts lines 420-430 and 445-455,
get.ts lines 412-422 and 437-447; identical in both copies): a string
passes, an array is checked elementwise at its indexed path, any other
present value is one error. -/
def departmentFieldErrors (fs : List (String × JValue)) (path : String) : List String :=
  match jlookup fs "department" with
  | none => []
  | some (.str _) => []
  | some (.arr ds) =>
      (ds.enum).flatMap (fun p =>
        if isString p.2 then []
        else [path ++ ".department[" ++ toString p.1 ++ "]: Must be a string"])
  | some _ => [path ++ ".department: Must be a string or array of strings if provided"]

/-- The optional `level` enumeration sub-check of the
creditCount/courseCount cases (utilities.ts lines 431-435 and 456-460,
get.ts lines 423-427 and 448-452; identical in both copies). -/
def levelFieldErrors (fs : List (String × JValue)) (path : String) : List String :=
  match jlookup fs "level" with
  | none => []
  | some v =>
      if (match v with
          | .str s => ["1XX", "2XX", "3XX", "4XX", "LD", "UD"].contains s
          | _ => false) then []
      else [path ++ ".level: Must be 1XX, 2XX, 3XX, 4XX, LD, or UD if provided"]

/-- The `case 'HSCourse'` branch (utilities.ts lines 404-414, get.ts
lines 396-406; identical in both copies). -/
def hsCourseErrors (fs : List (String × JValue)) (path : String) : List String :=
  requiredStringError fs "course" (path ++ ".course: Must be a string")
  ++ optionalStringError fs "minGrade" (path ++ ".minGrade: Must be a string if provided")
  ++ flagTrueError fs "orEquivalent" (path ++ ".orEquivalent: Must be true if provided")

/-- The `case 'creditCount'` branch (utilities.ts lines 416-439, get.ts
lines 408-431; identical in both copies). -/
def creditCountErrors (fs : List (String × JValue)) (path : String) : List String :=
  requiredNumberError fs "credits" (path ++ ".credits: Must be a number")
  ++ departmentFieldErrors fs path
  ++ levelFieldErrors fs path
  ++ flagTrueError fs "canBeTakenConcurrently"
      (path ++ ".canBeTakenConcurrently: Must be true if provided")

/-- The `case 'courseCount'` branch (utilities.ts lines 441-467, get.ts
lines 433-459; identical in both copies). -/
def courseCountErrors (fs : List (String × JValue)) (path : String) : List String :=
  requiredNumberError fs "count" (path ++ ".count: Must be a number")
  ++ departmentFieldErrors fs path
  ++ levelFieldErrors fs path
  ++ optionalStringError fs "minGrade" (path ++ ".minGrade: Must be a string if provided")
  ++ flagTrueError fs "canBeTakenConcurrently"
      (path ++ ".canBeTakenConcurrently: Must be true if provided")

namespace Utilities

/-- The `case 'course'` branch of utilities.ts `validateRequirementNode`
(lines 386-402); its department/number/minGrade messages carry a
`Course ` prefix absent from the get.ts copy. -/
def courseErrors (fs : List (String × JValue)) (path : String) : List String :=
  requiredStringError fs "department" ("Course " ++ path ++ ".department: Must be a string")
  ++ requiredStringError fs "number" ("Course " ++ path ++ ".number: Must be a string")
  ++ optionalStringError fs "minGrade"
      ("Course " ++ path ++ ".minGrade: Must be a string if provided")
  ++ flagTrueError fs "canBeTakenConcurrently"
      (path ++ ".canBeTakenConcurrently: Must be true if provided")
  ++ flagTrueError fs "orEquivalent" (path ++ ".orEquivalent: Must be true if provided")

/-- `validateCreditConflict` of utilities.ts (lines 304-351):
`conflict_course` requires string `department` and `number`, optional
string `title`; `conflict_other` requires string `note`; each variant
flags properties outside its allowed set. -/
def validateCreditConflict (conflict : JValue) (path : String) : List String :=
  match conflict with
  | .obj fs =>
      (match jlookup fs "type" with
       | some (.str t) =>
           if t = "conflict_course" ∨ t = "conflict_other" then []
           else [path ++ ".type: Must be either conflict_course or conflict_other"]
       | _ => [path ++ ".type: Must be a string"])
      ++
      (if lookupIsStr fs "type" "conflict_course" then
        requiredStringError fs "department" (path ++ ".department: Must be a string")
        ++ requiredStringError fs "number" (path ++ ".number: Must be a string")
        ++ optionalStringError fs "title" (path ++ ".title: Must be a string if provided")
        ++ invalidPropErrors fs ["type", "department", "number", "title"] path "conflict_course"
      else if lookupIsStr fs "type" "conflict_other" then
        requiredStringError fs "note" (path ++ ".note: Must be a string")
        ++ invalidPropErrors fs ["type", "note"] path "conflict_other"
      else [])
  | _ => [path ++ ": Must be an object"]

/-- The `switch (nodeObj.type)` dispatch of utilities.ts
`validateRequirementNode` (lines 369-502), with the group case's
recursive children part passed in. -/
def dispatchErrors (fs : List (String × JValue)) (path t : String)
    (childPart : List String) : List String :=
  if t = "group" then logicErrors fs path ++ childPart
  else if t = "course" then courseErrors fs path
  else if t = "HSCourse" then hsCourseErrors fs path
  else if t = "creditCount" then creditCountErrors fs path
  else if t = "courseCount" then courseCountErrors fs path
  else if t = "CGPA" then requiredNumberError fs "minCGPA" (path ++ ".minCGPA: Must be a number")
  else if t = "UDGPA" then requiredNumberError fs "minUDGPA" (path ++ ".minUDGPA: Must be a number")
  else if t = "program" then requiredStringError fs "program" (path ++ ".program: Must be a string")
  else if t = "permission" then requiredStringError fs "note" (path ++ ".note: Must be a string")
  else if t = "other" then requiredStringError fs "note" (path ++ ".note: Must be a string")
  else [path ++ ".type: Invalid requirement type " ++ t]

mutual

/-- `validateRequirementNode` of utilities.ts (lines 354-505): full
recursive structural validation of a candidate requirement node,
accumulating every error; the `group` case recurses into every child
regardless of the group node's own errors; an unrecognized `type` is one
error with no further descent.  The function is total: it returns an
error list on every `JValue` (the TypeScript source never throws). -/
def validateRequirementNode (node : JValue) (path : String) : List String :=
  match node with
  | .obj fs =>
      (match jlookup fs "type" with
       | some (.str t) =>
           dispatchErrors fs path t (childrenErrors (jlookup fs "children") path)
       | _ => [path ++ ".type: Must be a string"])
  | _ => [path ++ ": Must be an object"]
termination_by sizeOf node
decreasing_by
  simp
  apply sizeOf_jlookup_opt

/-- The `children` dispatch of the `group` case (utilities.ts lines
377-383): a non-array is one error, an array is validated elementwise. -/
def childrenErrors (o : Option JValue) (path : String) : List String :=
  match o with
  | some (.arr xs) => validateChildren xs path 0
  | _ => [path ++ ".children: Must be an array"]
termination_by sizeOf o
decreasing_by
  simp
  omega

/-- The `nodeObj.children.forEach` recursion of utilities.ts
`validateRequirementNode` (lines 380-382). -/
def validateChildren (children : List JValue) (path : String) (i : ℕ) : List String :=
  match children with
  | [] => []
  | c :: cs =>
      validateRequirementNode c (path ++ ".children[" ++ toString i ++ "]")
        ++ validateChildren cs path (i + 1)
termination_by sizeOf children
decreasing_by
  all_goals simp
  omega

end

/-- The optional-requirement-field loop of utilities.ts
`validateParsedCourseRequirements` (lines 526-531). -/
def requirementFieldErrors (fs : List (String × JValue)) : List String :=
  ["prerequisite", "corequisite", "recommended_prerequisite", "recommended_corequisite"].flatMap
    (fun field =>
      match jlookup fs field with
      | none => []
      | some v => validateRequirementNode v field)

/-- The `credit_conflicts` section of utilities.ts
`validateParsedCourseRequirements` (lines 533-542). -/
def creditConflictsErrors (fs : List (String × JValue)) : List String :=
  match jlookup fs "credit_conflicts" with
  | none => []
  | some (.arr cs) =>
      (cs.enum).flatMap (fun p =>
        validateCreditConflict p.2 ("credit_conflicts[" ++ toString p.1 ++ "]"))
  | some _ => ["credit_conflicts: Must be an array if provided"]

/-- `validateParsedCourseRequirements` of utilities.ts (lines 508-560):
a non-object is rejected outright; otherwise the envelope checks
`r_schema`, validates each of the four optional tree fields, validates
`credit_conflicts`, and flags unexpected top-level properties; `isValid`
is `errors.length === 0`.  Note this copy does not type-check
`department`, `number` or `rawResponse`.  Total on every `JValue`: it
always returns a verdict. -/
def validateParsedCourseRequirements (parsed : JValue) : ValidationResult :=
  match parsed with
  | .obj fs =>
      let errors :=
        requiredStringError fs "r_schema" "r_schema: Must be a string"
        ++ requirementFieldErrors fs
        ++ creditConflictsErrors fs
        ++ unexpectedPropErrors fs
      ⟨errors.isEmpty, errors⟩
  | _ => ⟨false, ["Root: Must be an object"]⟩

end Utilities

namespace Get

/-- The `case 'course'` branch of get.ts `validateRequirementNode`
(lines 378-394): the same five checks as the utilities.ts copy, with
plain (unprefixed) messages. -/
def courseErrors (fs : List (String × JValue)) (path : String) : List String :=
  requiredStringError fs "department" (path ++ ".department: Must be a string")
  ++ requiredStringError fs "number" (path ++ ".number: Must be a string")
  ++ optionalStringError fs "minGrade" (path ++ ".minGrade: Must be a string if provided")
  ++ flagTrueError fs "canBeTakenConcurrently"
      (path ++ ".canBeTakenConcurrently: Must be true if provided")
  ++ flagTrueError fs "orEquivalent" (path ++ ".orEquivalent: Must be true if provided")

/-- `validateCreditConflict` of get.ts (lines 296-343): same structure
as the utilities.ts copy, but `conflict_course` requires string
`subject` and `course` (not `department`/`number`), with allowed set
`[type, subject, course, title]`. -/
def validateCreditConflict (conflict : JValue) (path : String) : List String :=
  match conflict with
  | .obj fs =>
      (match jlookup fs "type" with
       | some (.str t) =>
           if t = "conflict_course" ∨ t = "conflict_other" then []
           else [path ++ ".type: Must be either conflict_course or conflict_other"]
       | _ => [path ++ ".type: Must be a string"])
      ++
      (if lookupIsStr fs "type" "conflict_course" then
        requiredStringError fs "subject" (path ++ ".subject: Must be a string")
        ++ requiredStringError fs "course" (path ++ ".course: Must be a string")
        ++ optionalStringError fs "title" (path ++ ".title: Must be a string if provided")
        ++ invalidPropErrors fs ["type", "subject", "course", "title"] path "conflict_course"
      else if lookupIsStr fs "type" "conflict_other" then
        requiredStringError fs "note" (path ++ ".note: Must be a string")
        ++ invalidPropErrors fs ["type", "note"] path "conflict_other"
      else [])
  | _ => [path ++ ": Must be an object"]

/-- The `switch (nodeObj.type)` dispatch of get.ts
`validateRequirementNode` (lines 361-494), with the group case's
recursive children part passed in. -/
def dispatchErrors (fs : List (String × JValue)) (path t : String)
    (childPart : List String) : List String :=
  if t = "group" then logicErrors fs path ++ childPart
  else if t = "course" then courseErrors fs path
  else if t = "HSCourse" then hsCourseErrors fs path
  else if t = "creditCount" then creditCountErrors fs path
  else if t = "courseCount" then courseCountErrors fs path
  else if t = "CGPA" then requiredNumberError fs "minCGPA" (path ++ ".minCGPA: Must be a number")
  else if t = "UDGPA" then requiredNumberError fs "minUDGPA" (path ++ ".minUDGPA: Must be a number")
  else if t = "program" then requiredStringError fs "program" (path ++ ".program: Must be a string")
  else if t = "permission" then requiredStringError fs "note" (path ++ ".note: Must be a string")
  else if t = "other" then requiredStringError fs "note" (path ++ ".note: Must be a string")
  else [path ++ ".type: Invalid requirement type " ++ t]

mutual

/-- `validateRequirementNode` of get.ts (lines 346-497): the same
recursive structural validation as the utilities.ts copy (identical
check conditions, message text without the `Course ` prefix). -/
def validateRequirementNode (node : JValue) (path : String) : List String :=
  match node with
  | .obj fs =>
      (match jlookup fs "type" with
       | some (.str t) =>
           dispatchErrors fs path t (childrenErrors (jlookup fs "children") path)
       | _ => [path ++ ".type: Must be a string"])
  | _ => [path ++ ": Must be an object"]
termination_by sizeOf node
decreasing_by
  simp
  apply sizeOf_jlookup_opt

/-- The `children` dispatch of the `group` case (get.ts lines
369-375): a non-array is one error, an array is validated elementwise. -/
def childrenErrors (o : Option JValue) (path : String) : List String :=
  match o with
  | some (.arr xs) => validateChildren xs path 0
  | _ => [path ++ ".children: Must be an array"]
termination_by sizeOf o
decreasing_by
  simp
  omega

/-- The `nodeObj.children.forEach` recursion of get.ts
`validateRequirementNode` (lines 372-374). -/
def validateChildren (children : List JValue) (path : String) (i : ℕ) : List String :=
  match children with
  | [] => []
  | c :: cs =>
      validateRequirementNode c (path ++ ".children[" ++ toString i ++ "]")
        ++ validateChildren cs path (i + 1)
termination_by sizeOf children
decreasing_by
  all_goals simp
  omega

end

/-- The optional-requirement-field loop of get.ts
`validateParsedCourseRequirements` (lines 527-532). -/
def requirementFieldErrors (fs : List (String × JValue)) : List String :=
  ["prerequisite", "corequisite", "recommended_prerequisite", "recommended_corequisite"].flatMap
    (fun field =>
      match jlookup fs field with
      | none => []
      | some v => validateRequirementNode v field)

/-- The `credit_conflicts` section of get.ts
`validateParsedCourseRequirements` (lines 535-543). -/
def creditConflictsErrors (fs : List (String × JValue)) : List String :=
  match jlookup fs "credit_conflicts" with
  | none => []
  | some (.arr cs) =>
      (cs.enum).flatMap (fun p =>
        validateCreditConflict p.2 ("credit_conflicts[" ++ toString p.1 ++ "]"))
  | some _ => ["credit_conflicts: Must be an array if provided"]

/-- `validateParsedCourseRequirements` of get.ts (lines 500-566): like
the utilities.ts copy but additionally requiring `department` and
`number` to be strings and `rawResponse`, when present, to be a
string. -/
def validateParsedCourseRequirements (parsed : JValue) : ValidationResult :=
  match parsed with
  | .obj fs =>
      let errors :=
        requiredStringError fs "department" "department: Must be a string"
        ++ requiredStringError fs "number" "number: Must be a string"
        ++ requiredStringError fs "r_schema" "r_schema: Must be a string"
        ++ requirementFieldErrors fs
        ++ creditConflictsErrors fs
        ++ optionalStringError fs "rawResponse" "rawResponse: Must be a string if provided"
        ++ unexpectedPropErrors fs
      ⟨errors.isEmpty, errors⟩
  | _ => ⟨false, ["Root: Must be an object"]⟩

end Get

/-! ### Specification-side definitions

The following definitions transcribe the spec's wording (not the code)
and are used to compare code behaviour against the spec. -/

/-- The weight factor a group contributes per the spec (§4.3): `1` for
`ALL_OF`, `1/n` for `ONE_OF`, `2/n` for `TWO_OF`, where `n` is the
group's number of children. -/
def logicFactor (logic : Logic) (n : ℕ) : ℚ :=
  match logic with
  | .ALL_OF => 1
  | .ONE_OF => 1 / (n : ℚ)
  | .TWO_OF => 2 / (n : ℚ)

mutual

/-- Spec-side weights: each `course`/`HSCourse` leaf reachable through
group nodes appears once, valued at the product of `logicFactor` over
its enclosing groups; all other leaf types contribute nothing. -/
def specWeights : RequirementNode → List (String × ℚ)
  | .group logic children =>
      (specWeightsList children).map
        (fun p => (p.1, logicFactor logic children.length * p.2))
  | .course dept num _ _ _ => [(dept ++ " " ++ num, 1)]
  | .HSCourse c _ _ => [("HS " ++ c, 1)]
  | _ => []

/-- Concatenation of `specWeights` over a child list. -/
def specWeightsList : List RequirementNode → List (String × ℚ)
  | [] => []
  | c :: cs => specWeights c ++ specWeightsList cs

end

mutual

/-- The number of `course`/`HSCourse` leaves reachable through group
nodes. -/
def graphLeafCount : RequirementNode → ℕ
  | .group _ children => graphLeafCountList children
  | .course _ _ _ _ _ => 1
  | .HSCourse _ _ _ => 1
  | _ => 0

/-- Sum of `graphLeafCount` over a child list. -/
def graphLeafCountList : List RequirementNode → ℕ
  | [] => 0
  | c :: cs => graphLeafCount c + graphLeafCountList cs

end

/-- The key under which an occurrence is stored in the link map:
`` `${source}->${target}` ``. -/
def linkKeyOf (l : Link) : String := l.source ++ "->" ++ l.target

/-- The link-map update a single extracted occurrence performs (the
`lm` component of `processPair`): insert under the occurrence's key when
absent, replace when the new rounded value is strictly higher. -/
def linkStep (lm : List (String × Link)) (o : Link) : List (String × Link) :=
  match mget lm (linkKeyOf o) with
  | none => lm ++ [(linkKeyOf o, o)]
  | some l =>
      if l.value < o.value then
        lm.map (fun e => if e.1 = linkKeyOf o then (linkKeyOf o, o) else e)
      else lm

/-- Every link occurrence the assembler processes, in processing order:
for each record in catalog order, its prerequisite extraction followed
by its corequisite extraction, as `(source, target, rounded value)`
triples. -/
def occurrencesOf (requirements : List CourseRequirements) : List Link :=
  requirements.flatMap
    (fun c => (recordPairs c).map (fun p => ⟨p.1, recordId c, round2 p.2⟩))

/-- The rounded weights of all occurrences of a given
`(source, target)` pair. -/
def pairOccValues (requirements : List CourseRequirements) (s t : String) : List ℚ :=
  ((occurrencesOf requirements).filter (fun o => o.source == s && o.target == t)).map
    (fun o => o.value)

/-- Invariant of the link map against the occurrences processed so far:
keys match their link's `(source, target)` pair, keys are distinct, each
stored link is one of the processed occurrences and its value bounds
every processed occurrence sharing its key, and every processed
occurrence has an entry under its key. -/
def goodLinkMap (lm : List (String × Link)) (P : List Link) : Prop :=
  (∀ e ∈ lm, e.1 = linkKeyOf e.2) ∧
  (lm.map Prod.fst).Nodup ∧
  (∀ e ∈ lm, e.2 ∈ P ∧ ∀ o ∈ P, linkKeyOf o = e.1 → o.value ≤ e.2.value) ∧
  (∀ o ∈ P, ∃ e ∈ lm, e.1 = linkKeyOf o)

/-- Node-map/link-map invariant of the assembly state: node entries are
keyed by their node's id, and every stored link's endpoints are keys of
the node map. -/
def goodState (st : AssemblyState) : Prop :=
  (∀ e ∈ st.1, e.1 = e.2.id) ∧
  (∀ e ∈ st.2, (∃ n ∈ st.1, n.1 = e.2.source) ∧ (∃ n ∈ st.1, n.1 = e.2.target))


/-! ### Supporting lemmas -/

/-- Code extraction equals spec-side weights scaled by the base value:
each emitted value is `baseValue` times the product of the enclosing
groups' factors. -/
theorem extract_eq_specWeights :
    (∀ node b, extractCourseRequirementsWithValues node b =
      (specWeights node).map (fun p => (p.1, b * p.2))) ∧
    (∀ cs v, extractList cs v =
      (specWeightsList cs).map (fun p => (p.1, v * p.2))) := by
  apply extractCourseRequirementsWithValues.mutual_induct
  case case1 =>
    intro dept num mg cc oe b
    simp [extractCourseRequirementsWithValues, specWeights]
  case case2 =>
    intro c mg oe b
    simp [extractCourseRequirementsWithValues, specWeights]
  case case3 =>
    intro logic children b ih
    revert ih
    cases logic <;> intro ih <;>
      · simp only [extractCourseRequirementsWithValues, specWeights, logicFactor] at ih ⊢
        rw [ih, List.map_map]
        refine List.map_congr_left (fun p _ => ?_)
        simp
        try ring
  case case4 =>
    intro node b hne1 hne2 hne3
    cases node <;> simp_all [extractCourseRequirementsWithValues, specWeights]
  case case5 =>
    intro v
    simp [extractList, specWeightsList]
  case case6 =>
    intro c cs v ih1 ih2
    simp only [extractList, specWeightsList, List.map_append]
    rw [ih1, ih2]


/-- Spec-side weights have exactly one entry per graph-relevant leaf. -/
theorem specWeights_length :
    (∀ node, (specWeights node).length = graphLeafCount node) ∧
    (∀ cs, (specWeightsList cs).length = graphLeafCountList cs) := by
  apply specWeights.mutual_induct
  case case1 => intro logic children ih; simp [specWeights, graphLeafCount, ih]
  case case2 => intro d n mg cc oe; simp [specWeights, graphLeafCount]
  case case3 => intro c mg oe; simp [specWeights, graphLeafCount]
  case case4 => intro node h1 h2 h3; cases node <;> simp_all [specWeights, graphLeafCount]
  case case5 => simp [specWeightsList, graphLeafCountList]
  case case6 => intro c cs ih1 ih2; simp [specWeightsList, graphLeafCountList, ih1, ih2]

/-- C1: `extractCourseRequirementsWithValues` emits exactly one
`(course, value)` pair per `course`/`HSCourse` leaf reachable through
group nodes, each value being `baseValue` times the product over the
enclosing groups of factor 1 (`ALL_OF`), `1/n` (`ONE_OF`) or `2/n`
(`TWO_OF`); the other seven leaf types emit nothing; values stay exact
during recursion and are rounded to two decimals only when they become
link weights — in particular `{ALL_OF:[A,B]}` at base 1 gives
`[(A,1),(B,1)]`, `{ONE_OF:[A,B]}` gives `[(A,1/2),(B,1/2)]`, and
`{TWO_OF:[A,B,C]}` gives each child at `2/3`, which appears in the
assembled links as `0.67`. -/
theorem extractWeighted_weighting_correct :
    (∀ node b, extractCourseRequirementsWithValues node b =
      (specWeights node).map (fun p => (p.1, b * p.2)))
    ∧ (∀ node b, (extractCourseRequirementsWithValues node b).length = graphLeafCount node)
    ∧ (∀ q d l c b, extractCourseRequirementsWithValues (.creditCount q d l c) b = [])
    ∧ (∀ q d l mg c b, extractCourseRequirementsWithValues (.courseCount q d l mg c) b = [])
    ∧ (∀ q b, extractCourseRequirementsWithValues (.CGPA q) b = [])
    ∧ (∀ q b, extractCourseRequirementsWithValues (.UDGPA q) b = [])
    ∧ (∀ s b, extractCourseRequirementsWithValues (.program s) b = [])
    ∧ (∀ s b, extractCourseRequirementsWithValues (.permission s) b = [])
    ∧ (∀ s b, extractCourseRequirementsWithValues (.other s) b = [])
    ∧ extractCourseRequirementsWithValues
        (.group .ALL_OF [bareCourse "A" "1", bareCourse "B" "2"]) 1
        = [("A 1", 1), ("B 2", 1)]
    ∧ extractCourseRequirementsWithValues
        (.group .ONE_OF [bareCourse "A" "1", bareCourse "B" "2"]) 1
        = [("A 1", 1/2), ("B 2", 1/2)]
    ∧ extractCourseRequirementsWithValues
        (.group .TWO_OF [bareCourse "A" "1", bareCourse "B" "2", bareCourse "C" "3"]) 1
        = [("A 1", 2/3), ("B 2", 2/3), ("C 3", 2/3)]
    ∧ (generateNodesAndLinks
        [⟨"CMPT", "300", "Title", some (.group .TWO_OF
            [bareCourse "A" "1", bareCourse "B" "2", bareCourse "C" "3"]), none⟩]).2
        = [⟨"A 1", "CMPT 300", 67/100⟩, ⟨"B 2", "CMPT 300", 67/100⟩,
           ⟨"C 3", "CMPT 300", 67/100⟩] := by
  refine ⟨extract_eq_specWeights.1, ?_, ?_, ?_, ?_, ?_, ?_, ?_, ?_, ?_, ?_, ?_, ?_⟩
  · intro node b
    rw [extract_eq_specWeights.1]
    simp [specWeights_length.1]
  · intro q d l c b; simp [extractCourseRequirementsWithValues]
  · intro q d l mg c b; simp [extractCourseRequirementsWithValues]
  · intro q b; simp [extractCourseRequirementsWithValues]
  · intro q b; simp [extractCourseRequirementsWithValues]
  · intro s b; simp [extractCourseRequirementsWithValues]
  · intro s b; simp [extractCourseRequirementsWithValues]
  · intro s b; simp [extractCourseRequirementsWithValues]
  · simp [extractCourseRequirementsWithValues, extractList, bareCourse]
  · norm_num [extractCourseRequirementsWithValues, extractList, bareCourse]
    decide
  · norm_num [extractCourseRequirementsWithValues, extractList, bareCourse]
    decide
  · norm_num [generateNodesAndLinks, assembledLinks, assembledState, createdNodes,
      processRecord, processPair, recordPairs, titleMapOf, courseDepthsOf, initialDepths,
      depthStep, recordId, mget, mset, addNodeIfAbsent, linkedNodeIds, departmentOfId,
      extractCourseRequirementsWithValues, extractList, calculatePrerequisiteDepth,
      depthList, bareCourse, round2, jsRound]
    simp

/-- `Math.max(...xs)` over a nonempty list is a member of the list. -/
theorem foldl_max_mem : ∀ (ds : List ℕ) (d : ℕ), ds.foldl Nat.max d ∈ d :: ds := by
  intro ds
  induction ds with
  | nil => intro d; simp
  | cons c cs ih =>
      intro d
      have h := ih (Nat.max d c)
      have hmc : Nat.max d c = d ∨ Nat.max d c = c := max_choice d c
      simp only [List.foldl_cons]
      rcases List.mem_cons.mp h with h1 | h1
      · rcases hmc with h2 | h2 <;> rw [h1, h2] <;> simp
      · simp [h1]

/-- `Math.max(...xs)` bounds every member of the list from above. -/
theorem foldl_max_le : ∀ (ds : List ℕ) (d x : ℕ), x ∈ d :: ds → x ≤ ds.foldl Nat.max d := by
  intro ds
  induction ds with
  | nil => intro d x hx; simp at hx; simp [hx]
  | cons c cs ih =>
      intro d x hx
      simp only [List.foldl_cons]
      have hseed : Nat.max d c ≤ List.foldl Nat.max (Nat.max d c) cs :=
        ih (Nat.max d c) (Nat.max d c) (by simp)
      rcases List.mem_cons.mp hx with h1 | h1
      · subst h1
        exact le_trans (Nat.le_max_left x c) hseed
      · rcases List.mem_cons.mp h1 with h2 | h2
        · subst h2
          exact le_trans (Nat.le_max_right d x) hseed
        · exact ih (Nat.max d c) x (List.mem_cons_of_mem _ h2)

/-- `Math.min(...xs)` over a nonempty list is a member of the list. -/
theorem foldl_min_mem : ∀ (ds : List ℕ) (d : ℕ), ds.foldl Nat.min d ∈ d :: ds := by
  intro ds
  induction ds with
  | nil => intro d; simp
  | cons c cs ih =>
      intro d
      have h := ih (Nat.min d c)
      have hmc : Nat.min d c = d ∨ Nat.min d c = c := min_choice d c
      simp only [List.foldl_cons]
      rcases List.mem_cons.mp h with h1 | h1
      · rcases hmc with h2 | h2 <;> rw [h1, h2] <;> simp
      · simp [h1]

/-- `Math.min(...xs)` bounds every member of the list from below. -/
theorem foldl_min_le : ∀ (ds : List ℕ) (d x : ℕ), x ∈ d :: ds → ds.foldl Nat.min d ≤ x := by
  intro ds
  induction ds with
  | nil => intro d x hx; simp at hx; simp [hx]
  | cons c cs ih =>
      intro d x hx
      simp only [List.foldl_cons]
      have hseed : List.foldl Nat.min (Nat.min d c) cs ≤ Nat.min d c :=
        ih (Nat.min d c) (Nat.min d c) (by simp)
      rcases List.mem_cons.mp hx with h1 | h1
      · subst h1
        exact le_trans hseed (Nat.min_le_left x c)
      · rcases List.mem_cons.mp h1 with h2 | h2
        · subst h2
          exact le_trans hseed (Nat.min_le_right d x)
        · exact ih (Nat.min d c) x (List.mem_cons_of_mem _ h2)

/-- C2: `calculatePrerequisiteDepth` returns the known depth plus one
for a `course` leaf (defaulting the lookup to 0), 1 for an `HSCourse`
leaf, 0 for every other leaf type; for a group it filters the children's
depths to the strictly positive ones and returns 0 on an empty filtered
set, the maximum for `ALL_OF`, the minimum for `ONE_OF`, and the
second-smallest of the ascending sort for `TWO_OF` (the single element
when only one remains); in particular a bare course with no known depth
gives 1, `ONE_OF[X(2),Y(5)]` gives 2, `ALL_OF` of the same gives 5, and
`TWO_OF[X(2),Y(5),Z(8)]` gives 5. -/
theorem calculatePrerequisiteDepth_correct :
    (∀ dept num mg cc oe m,
      calculatePrerequisiteDepth (.course dept num mg cc oe) m
        = (mget m (dept ++ " " ++ num)).getD 0 + 1)
    ∧ (∀ c mg oe m, calculatePrerequisiteDepth (.HSCourse c mg oe) m = 1)
    ∧ (∀ q d l c m, calculatePrerequisiteDepth (.creditCount q d l c) m = 0)
    ∧ (∀ q d l mg c m, calculatePrerequisiteDepth (.courseCount q d l mg c) m = 0)
    ∧ (∀ q m, calculatePrerequisiteDepth (.CGPA q) m = 0)
    ∧ (∀ q m, calculatePrerequisiteDepth (.UDGPA q) m = 0)
    ∧ (∀ s m, calculatePrerequisiteDepth (.program s) m = 0)
    ∧ (∀ s m, calculatePrerequisiteDepth (.permission s) m = 0)
    ∧ (∀ s m, calculatePrerequisiteDepth (.other s) m = 0)
    ∧ (∀ logic children m,
        (depthList children m).filter (fun x => 0 < x) = [] →
        calculatePrerequisiteDepth (.group logic children) m = 0)
    ∧ (∀ children m d ds,
        (depthList children m).filter (fun x => 0 < x) = d :: ds →
        calculatePrerequisiteDepth (.group .ALL_OF children) m ∈ d :: ds ∧
        ∀ x ∈ d :: ds, x ≤ calculatePrerequisiteDepth (.group .ALL_OF children) m)
    ∧ (∀ children m d ds,
        (depthList children m).filter (fun x => 0 < x) = d :: ds →
        calculatePrerequisiteDepth (.group .ONE_OF children) m ∈ d :: ds ∧
        ∀ x ∈ d :: ds, calculatePrerequisiteDepth (.group .ONE_OF children) m ≤ x)
    ∧ (∀ children m ss,
        ((depthList children m).filter (fun x => 0 < x)).Perm ss →
        ss.Sorted (· ≤ ·) →
        calculatePrerequisiteDepth (.group .TWO_OF children) m = ss.getD 1 (ss.getD 0 0))
    ∧ calculatePrerequisiteDepth (bareCourse "MATH" "150") [] = 1
    ∧ calculatePrerequisiteDepth (.group .ONE_OF [bareCourse "X" "1", bareCourse "Y" "1"])
        [("X 1", 1), ("Y 1", 4), ("Z 1", 7)] = 2
    ∧ calculatePrerequisiteDepth (.group .ALL_OF [bareCourse "X" "1", bareCourse "Y" "1"])
        [("X 1", 1), ("Y 1", 4), ("Z 1", 7)] = 5
    ∧ calculatePrerequisiteDepth
        (.group .TWO_OF [bareCourse "X" "1", bareCourse "Y" "1", bareCourse "Z" "1"])
        [("X 1", 1), ("Y 1", 4), ("Z 1", 7)] = 5 := by
  refine ⟨fun dept num mg cc oe m => by simp [calculatePrerequisiteDepth],
    fun c mg oe m => by simp [calculatePrerequisiteDepth],
    fun q d l c m => by simp [calculatePrerequisiteDepth],
    fun q d l mg c m => by simp [calculatePrerequisiteDepth],
    fun q m => by simp [calculatePrerequisiteDepth],
    fun q m => by simp [calculatePrerequisiteDepth],
    fun s m => by simp [calculatePrerequisiteDepth],
    fun s m => by simp [calculatePrerequisiteDepth],
    fun s m => by simp [calculatePrerequisiteDepth],
    ?_, ?_, ?_, ?_, by decide, by decide, by decide, by decide⟩
  · intro logic children m h
    cases children with
    | nil => simp [calculatePrerequisiteDepth]
    | cons c cs => simp [calculatePrerequisiteDepth, h]
  · intro children m d ds h
    cases children with
    | nil => simp [depthList] at h
    | cons c cs =>
        simp only [calculatePrerequisiteDepth, List.isEmpty_cons, if_neg, Bool.false_eq_true,
          not_false_eq_true, h]
        exact ⟨foldl_max_mem ds d, fun x hx => foldl_max_le ds d x hx⟩
  · intro children m d ds h
    cases children with
    | nil => simp [depthList] at h
    | cons c cs =>
        simp only [calculatePrerequisiteDepth, List.isEmpty_cons, if_neg, Bool.false_eq_true,
          not_false_eq_true, h]
        exact ⟨foldl_min_mem ds d, fun x hx => foldl_min_le ds d x hx⟩
  · intro children m ss hperm hsorted
    have key : List.insertionSort (· ≤ ·) ((depthList children m).filter (fun x => 0 < x)) = ss :=
      List.eq_of_perm_of_sorted ((List.perm_insertionSort _ _).trans hperm)
        (List.sorted_insertionSort _ _) hsorted
    cases children with
    | nil =>
        have hss : ss = [] := by
          have : (depthList ([] : List RequirementNode) m).filter (fun x => 0 < x) = [] := by
            simp [depthList]
          rw [this] at hperm
          exact hperm.nil_eq.symm
        subst hss
        simp [calculatePrerequisiteDepth]
    | cons c cs =>
        cases hf : (depthList (c :: cs) m).filter (fun x => 0 < x) with
        | nil =>
            have hss : ss = [] := by
              rw [hf] at hperm
              exact hperm.nil_eq.symm
            subst hss
            simp [calculatePrerequisiteDepth, hf]
        | cons d ds =>
            rw [hf] at key
            simp only [calculatePrerequisiteDepth, List.isEmpty_cons, Bool.false_eq_true,
              if_neg, not_false_eq_true, hf, key]
            have hlen : ss.length = ds.length + 1 := by
              rw [← key, List.length_insertionSort]
              simp
            by_cases h2 : 2 ≤ ss.length
            · rw [if_pos h2]
              have h1 : 1 < ss.length := by omega
              rw [List.getD_eq_getElem _ _ h1, List.getD_eq_getElem _ _ h1]
            · rw [if_neg h2]
              have h1 : ss.length = 1 := by omega
              obtain ⟨x, rfl⟩ := List.length_eq_one.mp h1
              simp [List.getD]

/-- Witness for C2: the group clauses applied at concrete inputs. -/
theorem calculatePrerequisiteDepth_correct_witness :
    (calculatePrerequisiteDepth (.group .ALL_OF [bareCourse "X" "1", bareCourse "Y" "1"])
        [("X 1", 1), ("Y 1", 4)] ∈ (2 : ℕ) :: [5] ∧
      ∀ x ∈ (2 : ℕ) :: [5],
        x ≤ calculatePrerequisiteDepth (.group .ALL_OF [bareCourse "X" "1", bareCourse "Y" "1"])
          [("X 1", 1), ("Y 1", 4)]) ∧
    calculatePrerequisiteDepth
        (.group .TWO_OF [bareCourse "X" "1", bareCourse "Y" "1", bareCourse "Z" "1"])
        [("X 1", 1), ("Y 1", 4), ("Z 1", 7)]
      = [2, 5, 8].getD 1 ([2, 5, 8].getD 0 0) := by
  have h := calculatePrerequisiteDepth_correct
  obtain ⟨_, _, _, _, _, _, _, _, _, _, hall, _, htwo, _⟩ := h
  exact ⟨hall [bareCourse "X" "1", bareCourse "Y" "1"] [("X 1", 1), ("Y 1", 4)] 2 [5] (by decide),
    htwo [bareCourse "X" "1", bareCourse "Y" "1", bareCourse "Z" "1"]
      [("X 1", 1), ("Y 1", 4), ("Z 1", 7)] [2, 5, 8] (by decide) (by decide)⟩

/-- C3: the utilities.ts validator is total (a Lean function on every
JSON-decodable value — the source never throws), returns a verdict whose
`isValid` is true exactly when `errors` is empty, and does not stop at a
group node's own violations: on any group-shaped object the result is
exactly the group's local `logic` errors followed by the recursive
validation of every child. -/
theorem validateParsedCourseRequirements_total_verdict :
    (∀ v, (Utilities.validateParsedCourseRequirements v).isValid = true ↔
      (Utilities.validateParsedCourseRequirements v).errors = []) ∧
    (∀ lv xs path,
      Utilities.validateRequirementNode
          (.obj [("type", .str "group"), ("logic", lv), ("children", .arr xs)]) path
        = logicErrors [("type", .str "group"), ("logic", lv), ("children", .arr xs)] path
          ++ Utilities.validateChildren xs path 0) := by
  constructor
  · intro v
    cases v <;> simp [Utilities.validateParsedCourseRequirements]
  · intro lv xs path
    simp [Utilities.validateRequirementNode, Utilities.dispatchErrors,
      Utilities.childrenErrors, jlookup]

/-- Envelope unfolding for the utilities.ts validator on an object. -/
theorem utilities_envelope_eq (fs : List (String × JValue)) :
    Utilities.validateParsedCourseRequirements (.obj fs) =
      ⟨(requiredStringError fs "r_schema" "r_schema: Must be a string"
        ++ Utilities.requirementFieldErrors fs
        ++ Utilities.creditConflictsErrors fs
        ++ unexpectedPropErrors fs).isEmpty,
       requiredStringError fs "r_schema" "r_schema: Must be a string"
        ++ Utilities.requirementFieldErrors fs
        ++ Utilities.creditConflictsErrors fs
        ++ unexpectedPropErrors fs⟩ := rfl

/-- Envelope unfolding for the get.ts validator on an object. -/
theorem get_envelope_eq (fs : List (String × JValue)) :
    Get.validateParsedCourseRequirements (.obj fs) =
      ⟨(requiredStringError fs "department" "department: Must be a string"
        ++ requiredStringError fs "number" "number: Must be a string"
        ++ requiredStringError fs "r_schema" "r_schema: Must be a string"
        ++ Get.requirementFieldErrors fs
        ++ Get.creditConflictsErrors fs
        ++ optionalStringError fs "rawResponse" "rawResponse: Must be a string if provided"
        ++ unexpectedPropErrors fs).isEmpty,
       requiredStringError fs "department" "department: Must be a string"
        ++ requiredStringError fs "number" "number: Must be a string"
        ++ requiredStringError fs "r_schema" "r_schema: Must be a string"
        ++ Get.requirementFieldErrors fs
        ++ Get.creditConflictsErrors fs
        ++ optionalStringError fs "rawResponse" "rawResponse: Must be a string if provided"
        ++ unexpectedPropErrors fs⟩ := rfl

/-- Counterexample to C5: a candidate whose `prerequisite` is a group
with an empty `children` array (all other fields well-formed) passes the
utilities.ts validator with no errors — the ≥1-child model invariant is
not enforced. -/
theorem groupEmptyChildren_counterexample :
    (Utilities.validateParsedCourseRequirements (.obj
      [("r_schema", .str "SFUv1"),
       ("prerequisite", .obj
         [("type", .str "group"), ("logic", .str "ALL_OF"), ("children", .arr [])])])).isValid
      = true ∧
    (Utilities.validateParsedCourseRequirements (.obj
      [("r_schema", .str "SFUv1"),
       ("prerequisite", .obj
         [("type", .str "group"), ("logic", .str "ALL_OF"), ("children", .arr [])])])).errors
      = [] := by
  constructor <;>
    simp [Utilities.validateParsedCourseRequirements, Utilities.requirementFieldErrors,
      Utilities.creditConflictsErrors, unexpectedPropErrors, validTopLevelProps,
      Utilities.validateRequirementNode, Utilities.dispatchErrors, Utilities.childrenErrors,
      Utilities.validateChildren, logicErrors, requiredStringError, jlookup]

/-- C5 amended: the structural validator does not enforce non-emptiness
of a group's `children`: for every recognized logic value, a group node
with an empty children array produces no validation errors. -/
theorem groupEmptyChildren_not_enforced :
    ∀ l path, (l = "ALL_OF" ∨ l = "ONE_OF" ∨ l = "TWO_OF") →
      Utilities.validateRequirementNode
        (.obj [("type", .str "group"), ("logic", .str l), ("children", .arr [])]) path = [] := by
  intro l path h
  simp [Utilities.validateRequirementNode, Utilities.dispatchErrors, Utilities.childrenErrors,
    Utilities.validateChildren, logicErrors, jlookup, h]

/-- Witness for the amended C5 statement. -/
theorem groupEmptyChildren_not_enforced_witness :
    Utilities.validateRequirementNode
      (.obj [("type", .str "group"), ("logic", .str "ALL_OF"), ("children", .arr [])])
      "prerequisite" = [] :=
  groupEmptyChildren_not_enforced "ALL_OF" "prerequisite" (Or.inl rfl)

/-- Counterexample to C4: a `course` node carrying an extra disallowed
property (`bogus`) produces no error in either validator copy, and an
envelope containing it is accepted — requirement-node validation never
flags unexpected properties. -/
theorem unexpectedProp_course_counterexample :
    Utilities.validateRequirementNode
      (.obj [("type", .str "course"), ("department", .str "MATH"),
             ("number", .str "150"), ("bogus", .str "x")]) "prerequisite" = [] ∧
    Get.validateRequirementNode
      (.obj [("type", .str "course"), ("department", .str "MATH"),
             ("number", .str "150"), ("bogus", .str "x")]) "prerequisite" = [] ∧
    (Utilities.validateParsedCourseRequirements (.obj
      [("r_schema", .str "SFUv1"),
       ("prerequisite", .obj [("type", .str "course"), ("department", .str "MATH"),
          ("number", .str "150"), ("bogus", .str "x")])])).isValid = true := by
  refine ⟨?_, ?_, ?_⟩ <;>
    simp [Utilities.validateParsedCourseRequirements, Utilities.requirementFieldErrors,
      Utilities.creditConflictsErrors, unexpectedPropErrors, validTopLevelProps,
      Utilities.validateRequirementNode, Utilities.dispatchErrors, Utilities.courseErrors,
      Get.validateRequirementNode, Get.dispatchErrors, Get.courseErrors,
      requiredStringError, optionalStringError, flagTrueError, jlookup]

/-- C4 amended: unexpected-property flagging happens only at the
top-level envelope (and inside credit-conflict objects), not on
requirement nodes: an otherwise well-formed `course` node with one extra
unrecognized property validates with no errors in both copies, while any
top-level property outside the envelope's allowed set yields an
`Unexpected property` error at that property and `isValid = false`. -/
theorem unexpectedProp_envelope_only :
    (∀ dept num k v path,
      k ∉ ["type", "department", "number", "minGrade", "canBeTakenConcurrently", "orEquivalent"] →
      Utilities.validateRequirementNode
        (.obj [("type", .str "course"), ("department", .str dept),
               ("number", .str num), (k, v)]) path = [] ∧
      Get.validateRequirementNode
        (.obj [("type", .str "course"), ("department", .str dept),
               ("number", .str num), (k, v)]) path = []) ∧
    (∀ fs k v, (k, v) ∈ fs → k ∉ validTopLevelProps →
      (k ++ ": Unexpected property") ∈ (Utilities.validateParsedCourseRequirements (.obj fs)).errors ∧
      (Utilities.validateParsedCourseRequirements (.obj fs)).isValid = false) := by
  constructor
  · intro dept num k v path h
    simp only [List.mem_cons, List.not_mem_nil, or_false, not_or] at h
    obtain ⟨h1, h2, h3, h4, h5, h6⟩ := h
    constructor <;>
      simp [Utilities.validateRequirementNode, Utilities.dispatchErrors, Utilities.courseErrors,
        Get.validateRequirementNode, Get.dispatchErrors, Get.courseErrors,
        requiredStringError, optionalStringError, flagTrueError, jlookup,
        h1, h2, h3, h4, h5, h6]
  · intro fs k v hmem hk
    have hmem2 : (k ++ ": Unexpected property") ∈ unexpectedPropErrors fs := by
      simp only [unexpectedPropErrors, List.mem_map, List.mem_filter]
      exact ⟨k, ⟨⟨(k, v), hmem, rfl⟩, by simpa using hk⟩, rfl⟩
    have herr : (k ++ ": Unexpected property")
        ∈ (Utilities.validateParsedCourseRequirements (.obj fs)).errors := by
      rw [utilities_envelope_eq]
      exact List.mem_append_right _ hmem2
    refine ⟨herr, ?_⟩
    rw [utilities_envelope_eq] at herr ⊢
    simp only [List.isEmpty_eq_false_iff_exists_mem]
    exact ⟨_, herr⟩

/-- Witness for the amended C4 statement. -/
theorem unexpectedProp_envelope_only_witness :
    (Utilities.validateRequirementNode
      (.obj [("type", .str "course"), ("department", .str "MATH"),
             ("number", .str "150"), ("bogus", .str "x")]) "prerequisite" = [] ∧
     Get.validateRequirementNode
      (.obj [("type", .str "course"), ("department", .str "MATH"),
             ("number", .str "150"), ("bogus", .str "x")]) "prerequisite" = []) ∧
    ("extra: Unexpected property")
        ∈ (Utilities.validateParsedCourseRequirements (.obj
            [("r_schema", .str "SFUv1"), ("extra", .str "y")])).errors ∧
    (Utilities.validateParsedCourseRequirements (.obj
        [("r_schema", .str "SFUv1"), ("extra", .str "y")])).isValid = false := by
  have h := unexpectedProp_envelope_only
  exact ⟨h.1 "MATH" "150" "bogus" (.str "x") "prerequisite" (by decide),
    h.2 [("r_schema", .str "SFUv1"), ("extra", .str "y")] "extra" (.str "y")
      (by simp) (by decide)⟩

/-- Counterexample to C6: the utilities.ts
`validateParsedCourseRequirements` accepts an envelope whose
`department` and `number` are numbers — it never type-checks those two
fields (it checks only `r_schema`, the trees, the conflicts and
unexpected properties). -/
theorem departmentNumber_utilities_counterexample :
    (Utilities.validateParsedCourseRequirements (.obj
      [("department", .num 5), ("number", .num 7), ("r_schema", .str "SFUv1")])).isValid = true ∧
    (Utilities.validateParsedCourseRequirements (.obj
      [("department", .num 5), ("number", .num 7), ("r_schema", .str "SFUv1")])).errors = [] := by
  constructor <;>
    simp [Utilities.validateParsedCourseRequirements, Utilities.requirementFieldErrors,
      Utilities.creditConflictsErrors, unexpectedPropErrors, validTopLevelProps,
      requiredStringError, jlookup]

/-- C6 amended: only the get.ts copy validates the envelope's
`department` and `number`: whenever either is absent or not a string, it
appends the corresponding error and returns `isValid = false`. -/
theorem departmentNumber_get_checked :
    (∀ fs, (∀ s, jlookup fs "department" ≠ some (.str s)) →
      ("department: Must be a string") ∈ (Get.validateParsedCourseRequirements (.obj fs)).errors ∧
      (Get.validateParsedCourseRequirements (.obj fs)).isValid = false) ∧
    (∀ fs, (∀ s, jlookup fs "number" ≠ some (.str s)) →
      ("number: Must be a string") ∈ (Get.validateParsedCourseRequirements (.obj fs)).errors ∧
      (Get.validateParsedCourseRequirements (.obj fs)).isValid = false) := by
  constructor
  · intro fs h
    have hA : requiredStringError fs "department" "department: Must be a string"
        = ["department: Must be a string"] := by
      unfold requiredStringError
      rcases hl : jlookup fs "department" with _ | v
      · rfl
      · cases v with
        | str s => exact absurd hl (h s)
        | null => rfl
        | bool b => rfl
        | num q => rfl
        | arr xs => rfl
        | obj fs2 => rfl
    rw [get_envelope_eq]
    constructor
    · simp [hA]
    · simp [hA]
  · intro fs h
    have hA : requiredStringError fs "number" "number: Must be a string"
        = ["number: Must be a string"] := by
      unfold requiredStringError
      rcases hl : jlookup fs "number" with _ | v
      · rfl
      · cases v with
        | str s => exact absurd hl (h s)
        | null => rfl
        | bool b => rfl
        | num q => rfl
        | arr xs => rfl
        | obj fs2 => rfl
    rw [get_envelope_eq]
    constructor
    · simp [hA]
    · simp [hA]

/-- Witness for the amended C6 statement. -/
theorem departmentNumber_get_checked_witness :
    (("department: Must be a string") ∈ (Get.validateParsedCourseRequirements (.obj
        [("department", .num 5), ("number", .num 7)])).errors ∧
      (Get.validateParsedCourseRequirements (.obj
        [("department", .num 5), ("number", .num 7)])).isValid = false) ∧
    (("number: Must be a string") ∈ (Get.validateParsedCourseRequirements (.obj
        [("department", .num 5), ("number", .num 7)])).errors ∧
      (Get.validateParsedCourseRequirements (.obj
        [("department", .num 5), ("number", .num 7)])).isValid = false) := by
  have h := departmentNumber_get_checked
  exact ⟨h.1 [("department", .num 5), ("number", .num 7)] (by simp [jlookup]),
    h.2 [("department", .num 5), ("number", .num 7)] (by simp [jlookup])⟩

/-- Replacing an existing key in place, then reading it back. -/
theorem mget_map_replace {β : Type} (m : List (String × β)) (k : String) (v : β)
    (hmem : (mget m k).isSome = true) :
    mget (m.map (fun e => if e.1 = k then (k, v) else e)) k = some v := by
  induction m with
  | nil => simp [mget] at hmem
  | cons e es ih =>
      simp only [List.map_cons]
      by_cases he : e.1 = k
      · rw [if_pos he]
        simp [mget]
      · rw [if_neg he]
        rw [mget, if_neg he] at hmem
        simp [mget, he, ih hmem]

/-- Appending a fresh key, then reading it back. -/
theorem mget_append_single {β : Type} (m : List (String × β)) (k : String) (v : β)
    (habs : mget m k = none) : mget (m ++ [(k, v)]) k = some v := by
  induction m with
  | nil => simp [mget]
  | cons e es ih =>
      by_cases he : e.1 = k
      · rw [mget, if_pos he] at habs
        cases habs
      · rw [mget, if_neg he] at habs
        simp [mget, he, ih habs]

/-- Reading back the key just set. -/
theorem mget_mset_self {β : Type} (m : List (String × β)) (k : String) (v : β) :
    mget (mset m k v) k = some v := by
  unfold mset
  split
  · next hs => exact mget_map_replace m k v hs
  · next hs => exact mget_append_single m k v (by simpa using hs)

/-- In-place replacement of one key leaves every other key unchanged. -/
theorem mget_map_replace_ne {β : Type} (m : List (String × β)) (k2 k : String) (v : β)
    (h : k2 ≠ k) :
    mget (m.map (fun e => if e.1 = k2 then (k2, v) else e)) k = mget m k := by
  induction m with
  | nil => simp [mget]
  | cons e es ih =>
      simp only [List.map_cons]
      by_cases he : e.1 = k2
      · rw [if_pos he]
        simp [mget, h, he, ih]
      · rw [if_neg he]
        by_cases hek : e.1 = k
        · simp [mget, hek]
        · simp [mget, hek, ih]

/-- Appending a fresh key leaves every other key unchanged. -/
theorem mget_append_single_ne {β : Type} (m : List (String × β)) (k2 k : String) (v : β)
    (h : k2 ≠ k) : mget (m ++ [(k2, v)]) k = mget m k := by
  induction m with
  | nil => simp [mget, h]
  | cons e es ih =>
      by_cases hek : e.1 = k
      · simp [mget, hek]
      · simp [mget, hek, ih]

/-- `mset` leaves every other key unchanged. -/
theorem mget_mset_ne {β : Type} (m : List (String × β)) (k2 k : String) (v : β)
    (h : k2 ≠ k) : mget (mset m k2 v) k = mget m k := by
  unfold mset
  split
  · exact mget_map_replace_ne m k2 k v h
  · exact mget_append_single_ne m k2 k v h

/-- The depth pass leaves untouched the depth of a course id none of the
processed records carries. -/
theorem depthFold_preserve :
    ∀ (l : List CourseRequirements) (m : List (String × ℕ)) (k : String),
      (∀ r ∈ l, recordId r ≠ k) → mget (l.foldl depthStep m) k = mget m k := by
  intro l
  induction l with
  | nil => intro m k _; rfl
  | cons c cs ih =>
      intro m k hne
      rw [List.foldl_cons]
      rw [ih (depthStep m c) k (fun r hr => hne r (List.mem_cons_of_mem c hr))]
      unfold depthStep
      exact mget_mset_ne _ _ _ _ (hne c (List.mem_cons_self c cs))

/-- The initialization pass leaves untouched a course id none of the
processed records carries. -/
theorem initFold_preserve :
    ∀ (l : List CourseRequirements) (m : List (String × ℕ)) (k : String),
      (∀ r ∈ l, recordId r ≠ k) →
      mget (l.foldl (fun m c => mset m (recordId c) 0) m) k = mget m k := by
  intro l
  induction l with
  | nil => intro m k _; rfl
  | cons c cs ih =>
      intro m k hne
      rw [List.foldl_cons]
      rw [ih (mset m (recordId c) 0) k (fun r hr => hne r (List.mem_cons_of_mem c hr))]
      exact mget_mset_ne _ _ _ _ (hne c (List.mem_cons_self c cs))

/-- After initialization, every record's own id maps to depth 0. -/
theorem initFold_mem :
    ∀ (l : List CourseRequirements) (m : List (String × ℕ)) (k : String),
      (∃ r ∈ l, recordId r = k) →
      mget (l.foldl (fun m c => mset m (recordId c) 0) m) k = some 0 := by
  intro l
  induction l with
  | nil => intro m k h; simp at h
  | cons c cs ih =>
      intro m k h
      rw [List.foldl_cons]
      by_cases hcs : ∃ r ∈ cs, recordId r = k
      · exact ih _ k hcs
      · have hc : recordId c = k := by
          rcases h with ⟨r, hr, hrk⟩
          rcases List.mem_cons.mp hr with h1 | h1
          · exact h1 ▸ hrk
          · exact absurd ⟨r, h1, hrk⟩ hcs
        have hne : ∀ r ∈ cs, recordId r ≠ k := by
          intro r hr heq
          exact hcs ⟨r, hr, heq⟩
        rw [initFold_preserve cs _ k hne, hc]
        exact mget_mset_self m k 0

/-- C7: the depth pass runs in catalog listing order: after initializing
every record id to 0, each record's depth is written as the maximum of
`calculatePrerequisiteDepth` over its trees against the map as computed
so far; hence a record `A` whose prerequisite is the bare course of a
record `B` that appears later in the listing gets depth exactly 1,
whatever `B`'s own prerequisites are. -/
theorem depth_listing_order :
    ∀ (xs ys zs : List CourseRequirements) (A B : CourseRequirements),
      A.prerequisite = some (bareCourse B.department B.number) →
      A.corequisite = none →
      (∀ r ∈ xs, recordId r ≠ recordId B) →
      (∀ r ∈ ys ++ B :: zs, recordId r ≠ recordId A) →
      mget (courseDepthsOf (xs ++ A :: (ys ++ B :: zs))) (recordId A) = some 1 := by
  intro xs ys zs A B hpre hco hxs hrest
  unfold courseDepthsOf
  rw [List.foldl_append, List.foldl_cons]
  rw [depthFold_preserve (ys ++ B :: zs) _ _ hrest]
  have hB0 : mget (xs.foldl depthStep (initialDepths (xs ++ A :: (ys ++ B :: zs))))
      (recordId B) = some 0 := by
    rw [depthFold_preserve xs _ _ hxs]
    apply initFold_mem
    exact ⟨B, by simp, rfl⟩
  have hstep : ∀ m, depthStep m A = mset m (recordId A)
      (Nat.max 0 (calculatePrerequisiteDepth (bareCourse B.department B.number) m)) := by
    intro m
    unfold depthStep
    rw [hpre, hco]
  rw [hstep]
  have hcalc : calculatePrerequisiteDepth (bareCourse B.department B.number)
      (xs.foldl depthStep (initialDepths (xs ++ A :: (ys ++ B :: zs)))) = 1 := by
    unfold bareCourse
    simp only [calculatePrerequisiteDepth]
    rw [show B.department ++ " " ++ B.number = recordId B from rfl, hB0]
    rfl
  rw [hcalc]
  exact mget_mset_self _ _ _

/-- Witness for C7: `A` (CMPT 225) precedes `B` (CMPT 125); `A`'s
prerequisite is the bare course `B`; `B` itself has a prerequisite
(CMPT 120), yet `A`'s computed depth is 1. -/
theorem depth_listing_order_witness :
    mget (courseDepthsOf
      [⟨"CMPT", "225", "T1", some (bareCourse "CMPT" "125"), none⟩,
       ⟨"CMPT", "125", "T2", some (bareCourse "CMPT" "120"), none⟩])
      (recordId ⟨"CMPT", "225", "T1", some (bareCourse "CMPT" "125"), none⟩) = some 1 :=
  depth_listing_order [] [] []
    ⟨"CMPT", "225", "T1", some (bareCourse "CMPT" "125"), none⟩
    ⟨"CMPT", "125", "T2", some (bareCourse "CMPT" "120"), none⟩
    rfl rfl (by simp) (by decide)

/-- A failed lookup means no entry carries the key. -/
theorem mget_eq_none_iff {β : Type} (m : List (String × β)) (k : String) :
    mget m k = none ↔ ∀ e ∈ m, e.1 ≠ k := by
  induction m with
  | nil => simp [mget]
  | cons e es ih =>
      by_cases he : e.1 = k
      · simp [mget, he]
      · simp [mget, he, ih]

/-- A successful lookup returns an entry of the list. -/
theorem mget_mem {β : Type} (m : List (String × β)) (k : String) (v : β)
    (h : mget m k = some v) : (k, v) ∈ m := by
  induction m with
  | nil => simp [mget] at h
  | cons e es ih =>
      by_cases he : e.1 = k
      · rw [mget, if_pos he] at h
        cases h
        subst he
        simp
      · rw [mget, if_neg he] at h
        exact List.mem_cons_of_mem e (ih h)

/-- A present key is carried by some entry. -/
theorem mget_isSome_mem {β : Type} (m : List (String × β)) (k : String)
    (h : (mget m k).isSome = true) : ∃ e ∈ m, e.1 = k := by
  rcases hv : mget m k with _ | v
  · rw [hv] at h; cases h
  · exact ⟨(k, v), mget_mem m k v hv, rfl⟩

/-- The link-map component of one extracted-pair step is `linkStep` on
the corresponding occurrence. -/
theorem processPair_snd (tm : List (String × String)) (cd : List (String × ℕ))
    (tgt : String) (st : AssemblyState) (p : String × ℚ) :
    (processPair tm cd tgt st p).2 = linkStep st.2 ⟨p.1, tgt, round2 p.2⟩ := by
  obtain ⟨a, b⟩ := p
  rfl

/-- The link-map component of a pair fold only depends on the link map. -/
theorem foldPairs_snd (tm : List (String × String)) (cd : List (String × ℕ)) (tgt : String) :
    ∀ (ps : List (String × ℚ)) (st : AssemblyState),
      (ps.foldl (processPair tm cd tgt) st).2
        = ps.foldl (fun lm p => linkStep lm ⟨p.1, tgt, round2 p.2⟩) st.2 := by
  intro ps
  induction ps with
  | nil => intro st; rfl
  | cons p ps ih =>
      intro st
      rw [List.foldl_cons, List.foldl_cons, ih, processPair_snd]

/-- The assembled link map is the fold of `linkStep` over the
occurrence list. -/
theorem assembled_snd (requirements : List CourseRequirements) :
    (assembledState requirements).2 = (occurrencesOf requirements).foldl linkStep [] := by
  unfold assembledState occurrencesOf
  generalize titleMapOf requirements = tm
  generalize courseDepthsOf requirements = cd
  have main : ∀ (l : List CourseRequirements) (st : AssemblyState),
      (l.foldl (processRecord tm cd) st).2
        = (l.flatMap (fun c => (recordPairs c).map
            (fun p => (⟨p.1, recordId c, round2 p.2⟩ : Link)))).foldl linkStep st.2 := by
    intro l
    induction l with
    | nil => intro st; rfl
    | cons c cs ih =>
        intro st
        rw [List.foldl_cons, List.flatMap_cons, List.foldl_append, ih]
        congr 1
        unfold processRecord
        rw [foldPairs_snd]
        rw [List.foldl_map]
  exact main requirements ([], [])


/-- With distinct keys, an entry is determined by its key. -/
theorem entry_unique {β : Type} :
    ∀ (lm : List (String × β)), (lm.map Prod.fst).Nodup →
      ∀ e1 ∈ lm, ∀ e2 ∈ lm, e1.1 = e2.1 → e1 = e2 := by
  intro lm
  induction lm with
  | nil => intro _ e1 h1; simp at h1
  | cons f fs ih =>
      intro hnod e1 h1 e2 h2 hk
      rw [List.map_cons, List.nodup_cons] at hnod
      rcases List.mem_cons.mp h1 with ha | ha <;> rcases List.mem_cons.mp h2 with hb | hb
      · rw [ha, hb]
      · exfalso
        apply hnod.1
        have : f.1 = e2.1 := by rw [← ha]; exact hk
        rw [this]
        exact List.mem_map_of_mem Prod.fst hb
      · exfalso
        apply hnod.1
        have : f.1 = e1.1 := by rw [← hb]; exact hk.symm
        rw [this]
        exact List.mem_map_of_mem Prod.fst ha
      · exact ih hnod.2 e1 ha e2 hb hk

/-- Replacing one key's entries preserves the key list. -/
theorem replace_keys (lm : List (String × Link)) (k : String) (o : Link) (hk : linkKeyOf o = k) :
    ((lm.map (fun e => if e.1 = k then (k, o) else e)).map Prod.fst) = lm.map Prod.fst := by
  rw [List.map_map]
  apply List.map_congr_left
  intro e _
  by_cases he : e.1 = k
  · simp [he]
  · simp [he]

/-- One `linkStep` preserves the link-map invariant, extending the
processed-occurrence list by the stepped occurrence. -/
theorem linkStep_inv (lm : List (String × Link)) (o : Link) (P : List Link)
    (hg : goodLinkMap lm P) : goodLinkMap (linkStep lm o) (P ++ [o]) := by
  obtain ⟨hkey, hnod, hstored, hcover⟩ := hg
  unfold linkStep
  rcases hl : mget lm (linkKeyOf o) with _ | l
  · have hfresh : ∀ e ∈ lm, e.1 ≠ linkKeyOf o := (mget_eq_none_iff lm _).mp hl
    refine ⟨?_, ?_, ?_, ?_⟩
    · intro e he
      rcases List.mem_append.mp he with h1 | h1
      · exact hkey e h1
      · simp at h1
        subst h1
        rfl
    · rw [List.map_append, List.nodup_append]
      refine ⟨hnod, by simp, ?_⟩
      intro a ha hb
      simp at hb
      rcases List.mem_map.mp ha with ⟨e, he, hea⟩
      exact hfresh e he (by rw [hea, hb])
    · intro e he
      rcases List.mem_append.mp he with h1 | h1
      · refine ⟨List.mem_append_left _ (hstored e h1).1, ?_⟩
        intro o2 ho2 hk2
        rcases List.mem_append.mp ho2 with h2 | h2
        · exact (hstored e h1).2 o2 h2 hk2
        · simp at h2
          subst h2
          exact absurd (hk2 ▸ rfl) (Ne.symm (hfresh e h1))
      · simp at h1
        subst h1
        refine ⟨List.mem_append_right _ (by simp), ?_⟩
        intro o2 ho2 hk2
        rcases List.mem_append.mp ho2 with h2 | h2
        · rcases hcover o2 h2 with ⟨e2, he2, hke2⟩
          exact absurd (hke2.trans hk2) (hfresh e2 he2)
        · simp at h2
          subst h2
          exact le_refl _
    · intro o2 ho2
      rcases List.mem_append.mp ho2 with h2 | h2
      · rcases hcover o2 h2 with ⟨e2, he2, hke2⟩
        exact ⟨e2, List.mem_append_left _ he2, hke2⟩
      · simp at h2
        rw [h2]
        exact ⟨(linkKeyOf o, o), List.mem_append_right _ (by simp), rfl⟩
  · have hlmem : (linkKeyOf o, l) ∈ lm := mget_mem lm _ l hl
    have huni : ∀ e ∈ lm, e.1 = linkKeyOf o → e = (linkKeyOf o, l) := by
      intro e he hek
      exact entry_unique lm hnod e he _ hlmem (by rw [hek])
    show goodLinkMap (if l.value < o.value then
        lm.map (fun e => if e.1 = linkKeyOf o then (linkKeyOf o, o) else e) else lm) (P ++ [o])
    by_cases hlt : l.value < o.value
    · rw [if_pos hlt]
      refine ⟨?_, ?_, ?_, ?_⟩
      · intro e he
        rcases List.mem_map.mp he with ⟨e2, he2, hee⟩
        by_cases h2 : e2.1 = linkKeyOf o
        · rw [if_pos h2] at hee
          subst hee
          rfl
        · rw [if_neg h2] at hee
          subst hee
          exact hkey e2 he2
      · rw [replace_keys lm (linkKeyOf o) o rfl]
        exact hnod
      · intro e he
        rcases List.mem_map.mp he with ⟨e2, he2, hee⟩
        by_cases h2 : e2.1 = linkKeyOf o
        · rw [if_pos h2] at hee
          subst hee
          refine ⟨List.mem_append_right _ (by simp), ?_⟩
          intro o2 ho2 hk2
          rcases List.mem_append.mp ho2 with h3 | h3
          · have hb := (hstored (linkKeyOf o, l) hlmem).2 o2 h3 hk2
            exact le_trans hb (le_of_lt hlt)
          · simp at h3
            subst h3
            exact le_refl _
        · rw [if_neg h2] at hee
          subst hee
          refine ⟨List.mem_append_left _ (hstored e2 he2).1, ?_⟩
          intro o2 ho2 hk2
          rcases List.mem_append.mp ho2 with h3 | h3
          · exact (hstored e2 he2).2 o2 h3 hk2
          · simp at h3
            subst h3
            exact absurd hk2.symm h2
      · intro o2 ho2
        rcases List.mem_append.mp ho2 with h2 | h2
        · rcases hcover o2 h2 with ⟨e2, he2, hke2⟩
          refine ⟨if e2.1 = linkKeyOf o then (linkKeyOf o, o) else e2,
            List.mem_map_of_mem _ he2, ?_⟩
          by_cases h3 : e2.1 = linkKeyOf o
          · rw [if_pos h3]
            rw [← h3, hke2]
          · rw [if_neg h3]
            exact hke2
        · simp at h2
          rw [h2]
          refine ⟨(linkKeyOf o, o), ?_, rfl⟩
          have hmm := List.mem_map_of_mem
            (fun e => if e.1 = linkKeyOf o then (linkKeyOf o, o) else e) hlmem
          simpa using hmm
    · rw [if_neg hlt]
      refine ⟨hkey, hnod, ?_, ?_⟩
      · intro e he
        refine ⟨List.mem_append_left _ (hstored e he).1, ?_⟩
        intro o2 ho2 hk2
        rcases List.mem_append.mp ho2 with h2 | h2
        · exact (hstored e he).2 o2 h2 hk2
        · simp at h2
          rw [h2] at hk2
          have he2 : e = (linkKeyOf o, l) := huni e he hk2.symm
          rw [h2, he2]
          exact le_of_not_lt hlt
      · intro o2 ho2
        rcases List.mem_append.mp ho2 with h2 | h2
        · exact hcover o2 h2
        · simp at h2
          rw [h2]
          exact ⟨(linkKeyOf o, l), hlmem, rfl⟩

/-- The invariant carries over the whole occurrence fold. -/
theorem foldOccs_inv :
    ∀ (os : List Link) (lm : List (String × Link)) (P : List Link),
      goodLinkMap lm P → goodLinkMap (os.foldl linkStep lm) (P ++ os) := by
  intro os
  induction os with
  | nil => intro lm P hg; simpa using hg
  | cons o os ih =>
      intro lm P hg
      rw [List.foldl_cons]
      have h1 := ih (linkStep lm o) (P ++ [o]) (linkStep_inv lm o P hg)
      simpa using h1

/-- The assembled link map satisfies the invariant against the full
occurrence list. -/
theorem assembled_good (requirements : List CourseRequirements) :
    goodLinkMap (assembledState requirements).2 (occurrencesOf requirements) := by
  rw [assembled_snd]
  have h := foldOccs_inv (occurrencesOf requirements) [] []
    ⟨by simp, by simp, by simp, by simp⟩
  simpa using h

/-- In a distinct-key map where the predicate pins down the key, at most
one value satisfies the predicate. -/
theorem filter_length_le_one {α : Type} (p : α → Bool) (K : String) :
    ∀ (lm : List (String × α)), (lm.map Prod.fst).Nodup →
      (∀ e ∈ lm, p e.2 = true → e.1 = K) →
      ((lm.map Prod.snd).filter p).length ≤ 1 := by
  intro lm
  induction lm with
  | nil => intro _ _; simp
  | cons e es ih =>
      intro hnod hpin
      rw [List.map_cons, List.nodup_cons] at hnod
      rw [List.map_cons, List.filter_cons]
      by_cases hp : p e.2 = true
      · rw [if_pos hp]
        have hK : e.1 = K := hpin e (List.mem_cons_self e es) hp
        have hes : (es.map Prod.snd).filter p = [] := by
          rw [List.filter_eq_nil_iff]
          intro a ha hpa
          rcases List.mem_map.mp ha with ⟨e2, he2, hae⟩
          have hK2 : e2.1 = K := hpin e2 (List.mem_cons_of_mem e he2) (hae ▸ hpa)
          apply hnod.1
          rw [hK, ← hK2]
          exact List.mem_map_of_mem Prod.fst he2
        rw [hes]
        simp
      · rw [if_neg hp]
        exact ih hnod.2 (fun e2 he2 => hpin e2 (List.mem_cons_of_mem e he2))

/-- C8: for every record collection and every `(source, target)` pair,
`generateNodesAndLinks` returns at most one link, and each returned
link's value is the maximum, over all occurrences of its pair produced
by extracting every record's prerequisite and corequisite trees, of the
two-decimal-rounded weight. -/
theorem links_are_pair_maxima :
    ∀ (requirements : List CourseRequirements),
      (∀ s t, (((generateNodesAndLinks requirements).2).filter
          (fun l => l.source == s && l.target == t)).length ≤ 1) ∧
      (∀ l ∈ (generateNodesAndLinks requirements).2,
        l.value ∈ pairOccValues requirements l.source l.target ∧
        ∀ v ∈ pairOccValues requirements l.source l.target, v ≤ l.value) := by
  intro reqs
  obtain ⟨hkey, hnod, hstored, hcover⟩ := assembled_good reqs
  have hlinks : (generateNodesAndLinks reqs).2 = (assembledState reqs).2.map Prod.snd := rfl
  constructor
  · intro s t
    rw [hlinks]
    apply filter_length_le_one _ (s ++ "->" ++ t) _ hnod
    intro e he hp
    simp only [Bool.and_eq_true, beq_iff_eq] at hp
    rw [hkey e he]
    unfold linkKeyOf
    rw [hp.1, hp.2]
  · intro l hl
    rw [hlinks] at hl
    rcases List.mem_map.mp hl with ⟨e, he, hel⟩
    subst hel
    constructor
    · unfold pairOccValues
      refine List.mem_map.mpr ⟨e.2, ?_, rfl⟩
      rw [List.mem_filter]
      exact ⟨(hstored e he).1, by simp⟩
    · intro v hv
      unfold pairOccValues at hv
      rcases List.mem_map.mp hv with ⟨o, ho, hov⟩
      rw [List.mem_filter] at ho
      have hkeq : linkKeyOf o = e.1 := by
        rw [hkey e he]
        unfold linkKeyOf
        have h1 := ho.2
        simp only [Bool.and_eq_true, beq_iff_eq] at h1
        rw [h1.1, h1.2]
      exact hov ▸ (hstored e he).2 o ho.1 hkeq

/-- Witness for C8: one record reaching `MATH 150` through two
structurally distinct paths (weight 1/2 via `ONE_OF`, weight 1 directly
under `ALL_OF`); the surviving link's value 1 is the maximum of its
pair's occurrence values. -/
theorem links_are_pair_maxima_witness :
    (1 : ℚ) ∈ pairOccValues
        [⟨"CMPT", "225", "T", some (.group .ALL_OF
            [.group .ONE_OF [bareCourse "MATH" "150", bareCourse "MATH" "151"],
             bareCourse "MATH" "150"]), none⟩] "MATH 150" "CMPT 225" ∧
      ∀ v ∈ pairOccValues
        [⟨"CMPT", "225", "T", some (.group .ALL_OF
            [.group .ONE_OF [bareCourse "MATH" "150", bareCourse "MATH" "151"],
             bareCourse "MATH" "150"]), none⟩] "MATH 150" "CMPT 225", v ≤ (1 : ℚ) := by
  have hmem : (⟨"MATH 150", "CMPT 225", 1⟩ : Link) ∈
      (generateNodesAndLinks
        [⟨"CMPT", "225", "T", some (.group .ALL_OF
            [.group .ONE_OF [bareCourse "MATH" "150", bareCourse "MATH" "151"],
             bareCourse "MATH" "150"]), none⟩]).2 := by
    norm_num [generateNodesAndLinks, assembledLinks, assembledState, createdNodes,
      processRecord, processPair, recordPairs, titleMapOf, courseDepthsOf, initialDepths,
      depthStep, recordId, mget, mset, addNodeIfAbsent, linkedNodeIds, departmentOfId,
      extractCourseRequirementsWithValues, extractList, calculatePrerequisiteDepth,
      depthList, bareCourse, round2, jsRound, linkKeyOf]
    simp
    exact ⟨"MATH 150->CMPT 225", ⟨"MATH 150", "CMPT 225", 2⁻¹⟩, Or.inl ⟨rfl, rfl⟩, by simp⟩
  exact (links_are_pair_maxima _).2 ⟨"MATH 150", "CMPT 225", 1⟩ hmem

/-- `addNodeIfAbsent` keeps every existing entry. -/
theorem addNodeIfAbsent_mono (nm : List (String × Node)) (id : String) (nd : Node) :
    ∀ e ∈ nm, e ∈ addNodeIfAbsent nm id nd := by
  intro e he
  unfold addNodeIfAbsent
  split
  · exact he
  · exact List.mem_append_left _ he

/-- Every entry of `addNodeIfAbsent` is an old entry or the new one. -/
theorem addNodeIfAbsent_entries (nm : List (String × Node)) (id : String) (nd : Node) :
    ∀ e ∈ addNodeIfAbsent nm id nd, e ∈ nm ∨ e = (id, nd) := by
  intro e he
  unfold addNodeIfAbsent at he
  split at he
  · exact Or.inl he
  · rcases List.mem_append.mp he with h1 | h1
    · exact Or.inl h1
    · simp at h1
      exact Or.inr h1

/-- After `addNodeIfAbsent`, the id is a key of the node map. -/
theorem addNodeIfAbsent_has (nm : List (String × Node)) (id : String) (nd : Node) :
    ∃ e ∈ addNodeIfAbsent nm id nd, e.1 = id := by
  unfold addNodeIfAbsent
  split
  · next hs => exact mget_isSome_mem nm id hs
  · exact ⟨(id, nd), List.mem_append_right _ (by simp), rfl⟩

/-- Every entry of `linkStep` is an old entry or stores the stepped
occurrence. -/
theorem linkStep_entries (lm : List (String × Link)) (o : Link) :
    ∀ e ∈ linkStep lm o, e ∈ lm ∨ e.2 = o := by
  unfold linkStep
  rcases hl : mget lm (linkKeyOf o) with _ | l
  · intro e he
    rcases List.mem_append.mp he with h1 | h1
    · exact Or.inl h1
    · simp at h1
      rw [h1]
      exact Or.inr rfl
  · show ∀ e ∈ (if l.value < o.value then
        lm.map (fun e => if e.1 = linkKeyOf o then (linkKeyOf o, o) else e) else lm),
        e ∈ lm ∨ e.2 = o
    by_cases hlt : l.value < o.value
    · rw [if_pos hlt]
      intro e he
      rcases List.mem_map.mp he with ⟨e2, he2, hee⟩
      by_cases h2 : e2.1 = linkKeyOf o
      · rw [if_pos h2] at hee
        rw [← hee]
        exact Or.inr rfl
      · rw [if_neg h2] at hee
        exact Or.inl (hee ▸ he2)
    · rw [if_neg hlt]
      intro e he
      exact Or.inl he

/-- `processPair` preserves the assembly invariant and the presence of
the target id among the node keys. -/
theorem processPair_good (tm : List (String × String)) (cd : List (String × ℕ))
    (tgt : String) (st : AssemblyState) (p : String × ℚ)
    (hg : goodState st) (htgt : ∃ n ∈ st.1, n.1 = tgt) :
    goodState (processPair tm cd tgt st p) ∧
      (∃ n ∈ (processPair tm cd tgt st p).1, n.1 = tgt) := by
  obtain ⟨sourceId, value⟩ := p
  obtain ⟨hids, hends⟩ := hg
  have hfst : (processPair tm cd tgt st (sourceId, value)).1
      = addNodeIfAbsent st.1 sourceId
        { id := sourceId
          title := (mget tm sourceId).getD sourceId
          group := departmentOfId sourceId
          depth := (mget cd sourceId).getD 0 } := rfl
  have hsnd : (processPair tm cd tgt st (sourceId, value)).2
      = linkStep st.2 ⟨sourceId, tgt, round2 value⟩ := rfl
  refine ⟨⟨?_, ?_⟩, ?_⟩
  · rw [hfst]
    intro e he
    rcases addNodeIfAbsent_entries _ _ _ e he with h1 | h1
    · exact hids e h1
    · rw [h1]
  · rw [hfst, hsnd]
    intro e he
    rcases linkStep_entries _ _ e he with h1 | h1
    · rcases hends e h1 with ⟨⟨n1, hn1, hk1⟩, ⟨n2, hn2, hk2⟩⟩
      exact ⟨⟨n1, addNodeIfAbsent_mono _ _ _ n1 hn1, hk1⟩,
        ⟨n2, addNodeIfAbsent_mono _ _ _ n2 hn2, hk2⟩⟩
    · rw [h1]
      constructor
      · exact addNodeIfAbsent_has _ _ _
      · rcases htgt with ⟨n, hn, hkn⟩
        exact ⟨n, addNodeIfAbsent_mono _ _ _ n hn, hkn⟩
  · rw [hfst]
    rcases htgt with ⟨n, hn, hkn⟩
    exact ⟨n, addNodeIfAbsent_mono _ _ _ n hn, hkn⟩

/-- A whole record step preserves the assembly invariant. -/
theorem processRecord_good (tm : List (String × String)) (cd : List (String × ℕ))
    (st : AssemblyState) (c : CourseRequirements) (hg : goodState st) :
    goodState (processRecord tm cd st c) := by
  obtain ⟨hids, hends⟩ := hg
  unfold processRecord
  have hst1 : goodState
      (addNodeIfAbsent st.1 (recordId c)
        { id := recordId c
          title := c.original_title
          group := c.department
          depth := (mget cd (recordId c)).getD 0 }, st.2) := by
    constructor
    · intro e he
      rcases addNodeIfAbsent_entries _ _ _ e he with h1 | h1
      · exact hids e h1
      · rw [h1]
    · intro e he
      rcases hends e he with ⟨⟨n1, hn1, hk1⟩, ⟨n2, hn2, hk2⟩⟩
      exact ⟨⟨n1, addNodeIfAbsent_mono _ _ _ n1 hn1, hk1⟩,
        ⟨n2, addNodeIfAbsent_mono _ _ _ n2 hn2, hk2⟩⟩
  have htgt1 : ∃ n ∈ (addNodeIfAbsent st.1 (recordId c)
      { id := recordId c
        title := c.original_title
        group := c.department
        depth := (mget cd (recordId c)).getD 0 }, st.2).1, n.1 = recordId c := by
    exact addNodeIfAbsent_has _ _ _
  generalize hps : recordPairs c = ps
  clear hps
  revert hst1 htgt1
  generalize (addNodeIfAbsent st.1 (recordId c)
      { id := recordId c
        title := c.original_title
        group := c.department
        depth := (mget cd (recordId c)).getD 0 }, st.2) = st1
  intro hst1 htgt1
  induction ps generalizing st1 with
  | nil => exact hst1
  | cons p ps ih =>
      rw [List.foldl_cons]
      have h1 := processPair_good tm cd (recordId c) st1 p hst1 htgt1
      exact ih _ h1.1 h1.2

/-- The fully assembled state satisfies the invariant. -/
theorem assembled_goodState (requirements : List CourseRequirements) :
    goodState (assembledState requirements) := by
  unfold assembledState
  generalize titleMapOf requirements = tm
  generalize courseDepthsOf requirements = cd
  have main : ∀ (l : List CourseRequirements) (st : AssemblyState), goodState st →
      goodState (l.foldl (processRecord tm cd) st) := by
    intro l
    induction l with
    | nil => intro st h; exact h
    | cons c cs ih =>
        intro st h
        rw [List.foldl_cons]
        exact ih _ (processRecord_good tm cd st c h)
  exact main requirements ([], []) ⟨by simp, by simp⟩

/-- C9: the returned node list consists of exactly the created nodes
whose id appears in the source or target position of some returned link
(isolated nodes are pruned); consequently every returned link's source
and target ids appear in the returned node list, and pruning removes no
links (the full assembled link list is returned). -/
theorem pruned_nodes_are_linked :
    ∀ (requirements : List CourseRequirements),
      ((generateNodesAndLinks requirements).1 = (createdNodes requirements).filter
        (fun nd => (linkedNodeIds ((generateNodesAndLinks requirements).2)).contains nd.id)) ∧
      ((generateNodesAndLinks requirements).2 = assembledLinks requirements) ∧
      (∀ l ∈ (generateNodesAndLinks requirements).2,
        (∃ nd ∈ (generateNodesAndLinks requirements).1, nd.id = l.source) ∧
        (∃ nd ∈ (generateNodesAndLinks requirements).1, nd.id = l.target)) := by
  intro reqs
  obtain ⟨hids, hends⟩ := assembled_goodState reqs
  refine ⟨rfl, rfl, ?_⟩
  intro l hl
  have hl2 : l ∈ (assembledState reqs).2.map Prod.snd := hl
  rcases List.mem_map.mp hl2 with ⟨e, he, hel⟩
  rcases hends e he with ⟨⟨n1, hn1, hk1⟩, ⟨n2, hn2, hk2⟩⟩
  have hsrc : l.source ∈ linkedNodeIds (generateNodesAndLinks reqs).2 := by
    unfold linkedNodeIds
    exact List.mem_flatMap.mpr ⟨l, hl, by simp⟩
  have htgt : l.target ∈ linkedNodeIds (generateNodesAndLinks reqs).2 := by
    unfold linkedNodeIds
    exact List.mem_flatMap.mpr ⟨l, hl, by simp⟩
  constructor
  · refine ⟨n1.2, ?_, ?_⟩
    · show n1.2 ∈ (createdNodes reqs).filter _
      rw [List.mem_filter]
      refine ⟨List.mem_map_of_mem Prod.snd hn1, ?_⟩
      have hid : n1.2.id = l.source := by rw [← hids n1 hn1, hk1, hel]
      rw [hid]
      simpa using hsrc
    · rw [← hids n1 hn1, hk1, hel]
  · refine ⟨n2.2, ?_, ?_⟩
    · show n2.2 ∈ (createdNodes reqs).filter _
      rw [List.mem_filter]
      refine ⟨List.mem_map_of_mem Prod.snd hn2, ?_⟩
      have hid : n2.2.id = l.target := by rw [← hids n2 hn2, hk2, hel]
      rw [hid]
      simpa using htgt
    · rw [← hids n2 hn2, hk2, hel]

/-- Witness for C9: on a one-record catalog the returned link's
endpoints both appear in the pruned node list. -/
theorem pruned_nodes_are_linked_witness :
    (∃ nd ∈ (generateNodesAndLinks
        [⟨"CMPT", "225", "T", some (bareCourse "MATH" "150"), none⟩]).1,
      nd.id = "MATH 150") ∧
    (∃ nd ∈ (generateNodesAndLinks
        [⟨"CMPT", "225", "T", some (bareCourse "MATH" "150"), none⟩]).1,
      nd.id = "CMPT 225") := by
  have hmem : (⟨"MATH 150", "CMPT 225", 1⟩ : Link) ∈
      (generateNodesAndLinks
        [⟨"CMPT", "225", "T", some (bareCourse "MATH" "150"), none⟩]).2 := by
    norm_num [generateNodesAndLinks, assembledLinks, assembledState, createdNodes,
      processRecord, processPair, recordPairs, titleMapOf, courseDepthsOf, initialDepths,
      depthStep, recordId, mget, mset, addNodeIfAbsent, linkedNodeIds, departmentOfId,
      extractCourseRequirementsWithValues, extractList, calculatePrerequisiteDepth,
      depthList, bareCourse, round2, jsRound, linkKeyOf]
    decide
  have h := (pruned_nodes_are_linked
    [⟨"CMPT", "225", "T", some (bareCourse "MATH" "150"), none⟩]).2.2
    ⟨"MATH 150", "CMPT 225", 1⟩ hmem
  exact ⟨h.1, h.2⟩

/-- A required-string check flags the same number of errors whatever the
message text. -/
theorem requiredStringError_len (fs : List (String × JValue)) (k m1 m2 : String) :
    (requiredStringError fs k m1).length = (requiredStringError fs k m2).length := by
  unfold requiredStringError
  rcases jlookup fs k with _ | v
  · rfl
  · cases v <;> rfl

/-- An optional-string check flags the same number of errors whatever
the message text. -/
theorem optionalStringError_len (fs : List (String × JValue)) (k m1 m2 : String) :
    (optionalStringError fs k m1).length = (optionalStringError fs k m2).length := by
  unfold optionalStringError
  rcases jlookup fs k with _ | v
  · rfl
  · by_cases h : isString v = true <;> simp [h]

/-- A flag check flags the same number of errors whatever the message
text. -/
theorem flagTrueError_len (fs : List (String × JValue)) (k m1 m2 : String) :
    (flagTrueError fs k m1).length = (flagTrueError fs k m2).length := by
  unfold flagTrueError
  rcases jlookup fs k with _ | v
  · rfl
  · by_cases h : strEq v "true" = true <;> simp [h]

/-- The two copies' `course` branches flag the same number of errors
(the checks are identical; only the messages differ). -/
theorem courseErrors_len (fs : List (String × JValue)) (p : String) :
    (Utilities.courseErrors fs p).length = (Get.courseErrors fs p).length := by
  unfold Utilities.courseErrors Get.courseErrors
  simp only [List.length_append]
  have h1 := requiredStringError_len fs "department"
    ("Course " ++ p ++ ".department: Must be a string") (p ++ ".department: Must be a string")
  have h2 := requiredStringError_len fs "number"
    ("Course " ++ p ++ ".number: Must be a string") (p ++ ".number: Must be a string")
  have h3 := optionalStringError_len fs "minGrade"
    ("Course " ++ p ++ ".minGrade: Must be a string if provided")
    (p ++ ".minGrade: Must be a string if provided")
  omega

/-- The node validators of utilities.ts and get.ts flag the same number
of errors on every value (joint statement with the children helpers,
proved by strong induction on size). -/
theorem validators_len_aux :
    ∀ n : ℕ,
      (∀ v, sizeOf v ≤ n → ∀ p,
        (Utilities.validateRequirementNode v p).length
          = (Get.validateRequirementNode v p).length) ∧
      (∀ o : Option JValue, sizeOf o ≤ n → ∀ p,
        (Utilities.childrenErrors o p).length = (Get.childrenErrors o p).length) ∧
      (∀ xs : List JValue, sizeOf xs ≤ n → ∀ p i,
        (Utilities.validateChildren xs p i).length = (Get.validateChildren xs p i).length) := by
  intro n
  induction n with
  | zero =>
      refine ⟨?_, ?_, ?_⟩
      · intro v hv
        exfalso
        have : 0 < sizeOf v := by cases v <;> simp
        omega
      · intro o ho
        exfalso
        have : 0 < sizeOf o := by cases o <;> simp
        omega
      · intro xs hxs
        exfalso
        have : 0 < sizeOf xs := by cases xs <;> simp
        omega
  | succ n ih =>
      refine ⟨?_, ?_, ?_⟩
      · intro v hv p
        cases v with
        | obj fs =>
            simp only [Utilities.validateRequirementNode, Get.validateRequirementNode]
            rcases ht : jlookup fs "type" with _ | tv
            · rfl
            · cases tv with
              | str t =>
                  show (Utilities.dispatchErrors fs p t
                      (Utilities.childrenErrors (jlookup fs "children") p)).length
                    = (Get.dispatchErrors fs p t
                      (Get.childrenErrors (jlookup fs "children") p)).length
                  unfold Utilities.dispatchErrors Get.dispatchErrors
                  have hco : sizeOf (jlookup fs "children") ≤ n := by
                    have h1 := sizeOf_jlookup_opt fs "children"
                    simp at hv
                    omega
                  by_cases hg : t = "group"
                  · rw [if_pos hg, if_pos hg]
                    simp only [List.length_append]
                    rw [ih.2.1 (jlookup fs "children") hco p]
                  · rw [if_neg hg, if_neg hg]
                    by_cases hc : t = "course"
                    · rw [if_pos hc, if_pos hc]
                      exact courseErrors_len fs p
                    · rw [if_neg hc, if_neg hc]
              | null => rfl
              | bool b => rfl
              | num q => rfl
              | arr ys => rfl
              | obj fs2 => rfl
        | null => simp [Utilities.validateRequirementNode, Get.validateRequirementNode]
        | bool b => simp [Utilities.validateRequirementNode, Get.validateRequirementNode]
        | num q => simp [Utilities.validateRequirementNode, Get.validateRequirementNode]
        | str s => simp [Utilities.validateRequirementNode, Get.validateRequirementNode]
        | arr ys => simp [Utilities.validateRequirementNode, Get.validateRequirementNode]
      · intro o ho p
        cases o with
        | none => simp [Utilities.childrenErrors, Get.childrenErrors]
        | some v =>
            cases v with
            | arr xs =>
                simp only [Utilities.childrenErrors, Get.childrenErrors]
                have hxs : sizeOf xs ≤ n := by
                  simp at ho
                  omega
                exact ih.2.2 xs hxs p 0
            | null => simp [Utilities.childrenErrors, Get.childrenErrors]
            | bool b => simp [Utilities.childrenErrors, Get.childrenErrors]
            | num q => simp [Utilities.childrenErrors, Get.childrenErrors]
            | str sv => simp [Utilities.childrenErrors, Get.childrenErrors]
            | obj fs => simp [Utilities.childrenErrors, Get.childrenErrors]
      · intro xs hxs p i
        cases xs with
        | nil => simp [Utilities.validateChildren, Get.validateChildren]
        | cons c cs =>
            simp only [Utilities.validateChildren, Get.validateChildren, List.length_append]
            have hc : sizeOf c ≤ n := by
              simp at hxs
              omega
            have hcs : sizeOf cs ≤ n := by
              simp at hxs
              omega
            rw [ih.1 c hc, ih.2.2 cs hcs p (i + 1)]

/-- Counterexample to C10: the two validator copies disagree — an
envelope with a numeric `department` is accepted by the utilities.ts
copy (which never checks `department`) and rejected by the get.ts
copy. -/
theorem validators_disagree_counterexample :
    (Utilities.validateParsedCourseRequirements (.obj
      [("department", .num 5), ("number", .str "150"),
       ("r_schema", .str "SFUv1")])).isValid = true ∧
    (Get.validateParsedCourseRequirements (.obj
      [("department", .num 5), ("number", .str "150"),
       ("r_schema", .str "SFUv1")])).isValid = false := by
  constructor <;>
    simp [Utilities.validateParsedCourseRequirements, Utilities.requirementFieldErrors,
      Utilities.creditConflictsErrors, Get.validateParsedCourseRequirements,
      Get.requirementFieldErrors, Get.creditConflictsErrors, unexpectedPropErrors,
      validTopLevelProps, requiredStringError, optionalStringError, jlookup]

/-- C10 amended: the two validator copies agree on requirement-node
validation on every input (equal error counts, hence equal emptiness),
and their envelope verdicts coincide on every object whose `department`
and `number` are strings, whose `rawResponse` is absent or a string, and
which carries no `credit_conflicts` — the fields where the two copies'
checks differ. -/
theorem validators_agree_on_common_domain :
    (∀ v p, (Utilities.validateRequirementNode v p).length
      = (Get.validateRequirementNode v p).length) ∧
    (∀ fs,
      (∃ s, jlookup fs "department" = some (.str s)) →
      (∃ s, jlookup fs "number" = some (.str s)) →
      (jlookup fs "rawResponse" = none ∨ ∃ s, jlookup fs "rawResponse" = some (.str s)) →
      jlookup fs "credit_conflicts" = none →
      (Utilities.validateParsedCourseRequirements (.obj fs)).isValid
        = (Get.validateParsedCourseRequirements (.obj fs)).isValid) := by
  have hnode : ∀ v p, (Utilities.validateRequirementNode v p).length
      = (Get.validateRequirementNode v p).length :=
    fun v p => (validators_len_aux (sizeOf v)).1 v le_rfl p
  refine ⟨hnode, ?_⟩
  intro fs hd hn hr hc
  have hD : requiredStringError fs "department" "department: Must be a string" = [] := by
    rcases hd with ⟨s, hs⟩
    simp [requiredStringError, hs]
  have hN : requiredStringError fs "number" "number: Must be a string" = [] := by
    rcases hn with ⟨s, hs⟩
    simp [requiredStringError, hs]
  have hW : optionalStringError fs "rawResponse" "rawResponse: Must be a string if provided"
      = [] := by
    rcases hr with hnone | ⟨s, hs⟩
    · simp [optionalStringError, hnone]
    · simp [optionalStringError, hs, isString]
  have hCU : Utilities.creditConflictsErrors fs = [] := by
    simp [Utilities.creditConflictsErrors, hc]
  have hCG : Get.creditConflictsErrors fs = [] := by
    simp [Get.creditConflictsErrors, hc]
  have hfield : ∀ f : String,
      (match jlookup fs f with
       | none => []
       | some v => Utilities.validateRequirementNode v f).length
      = (match jlookup fs f with
         | none => []
         | some v => Get.validateRequirementNode v f).length := by
    intro f
    rcases hf : jlookup fs f with _ | v
    · rfl
    · exact hnode v f
  have hreq : (Utilities.requirementFieldErrors fs).length
      = (Get.requirementFieldErrors fs).length := by
    have h1 := hfield "prerequisite"
    have h2 := hfield "corequisite"
    have h3 := hfield "recommended_prerequisite"
    have h4 := hfield "recommended_corequisite"
    simp only [Utilities.requirementFieldErrors, Get.requirementFieldErrors,
      List.flatMap_cons, List.flatMap_nil, List.append_nil, List.length_append]
    omega
  rw [utilities_envelope_eq, get_envelope_eq]
  have hdec : ∀ (l : List String), l.isEmpty = decide (l.length = 0) := by
    intro l
    cases l <;> simp
  show (requiredStringError fs "r_schema" "r_schema: Must be a string"
      ++ Utilities.requirementFieldErrors fs
      ++ Utilities.creditConflictsErrors fs
      ++ unexpectedPropErrors fs).isEmpty
    = (requiredStringError fs "department" "department: Must be a string"
      ++ requiredStringError fs "number" "number: Must be a string"
      ++ requiredStringError fs "r_schema" "r_schema: Must be a string"
      ++ Get.requirementFieldErrors fs
      ++ Get.creditConflictsErrors fs
      ++ optionalStringError fs "rawResponse" "rawResponse: Must be a string if provided"
      ++ unexpectedPropErrors fs).isEmpty
  rw [hdec, hdec]
  have hlen : (requiredStringError fs "r_schema" "r_schema: Must be a string"
      ++ Utilities.requirementFieldErrors fs
      ++ Utilities.creditConflictsErrors fs
      ++ unexpectedPropErrors fs).length
    = (requiredStringError fs "department" "department: Must be a string"
      ++ requiredStringError fs "number" "number: Must be a string"
      ++ requiredStringError fs "r_schema" "r_schema: Must be a string"
      ++ Get.requirementFieldErrors fs
      ++ Get.creditConflictsErrors fs
      ++ optionalStringError fs "rawResponse" "rawResponse: Must be a string if provided"
      ++ unexpectedPropErrors fs).length := by
    simp only [List.length_append, hD, hN, hW, hCU, hCG, List.length_nil]
    omega
  rw [hlen]

/-- Witness for the amended C10 statement: a well-formed minimal
envelope on which both copies compute the same verdict. -/
theorem validators_agree_on_common_domain_witness :
    (Utilities.validateParsedCourseRequirements (.obj
      [("department", .str "CMPT"), ("number", .str "120"),
       ("r_schema", .str "SFUv1")])).isValid
    = (Get.validateParsedCourseRequirements (.obj
      [("department", .str "CMPT"), ("number", .str "120"),
       ("r_schema", .str "SFUv1")])).isValid :=
  validators_agree_on_common_domain.2
    [("department", .str "CMPT"), ("number", .str "120"), ("r_schema", .str "SFUv1")]
    ⟨"CMPT", by simp [jlookup]⟩ ⟨"120", by simp [jlookup]⟩
    (Or.inl (by simp [jlookup])) (by simp [jlookup])
